import Mathlib

/-!
Verification development for the `astrbot_plugin_htmlprint` plugin
(`src/main.py`).  The Python code is shallowly embedded: Python strings
are modelled as `List Char`, byte strings as `List Nat`, the network as a
pure fetch oracle `Str → Option Resp`, the BeautifulSoup document tree as
a small tree type `Node`, and filesystem writes as an accumulated list of
`(path, bytes)` pairs.  External collaborators (the HTML parser, URL
joining from `urllib`, path-extension extraction from `os.path`) are
passed in as oracle parameters; everything the plugin itself computes is
translated definition-by-definition from `src/main.py`.
-/

set_option maxRecDepth 10000

abbrev Str := List Char

abbrev Bytes := List Nat

/-- Scheme test used at `main.py` lines 54 and 618:
`url.startswith(('http://', 'https://'))`. -/
def hasUrlScheme (s : Str) : Bool :=
  "http://".data.isPrefixOf s || "https://".data.isPrefixOf s

/-- Scheme normalisation performed by `html_command` (lines 54-55) and
inside `is_valid_url` (lines 617-618): when no scheme prefix is present,
`'https://' + url` is used. -/
def normalizeUrl (s : Str) : Str :=
  if hasUrlScheme s then s else "https://".data ++ s

/-- Adoption of browser-rendered HTML at the call site, `html_command`
lines 69-75.  `rendered = none` models `fetch_html_with_browser`
returning `None`; Python's truthiness test `if browser_html` is the
non-emptiness test; the float comparison `len(b) > len(o) * 1.5` is exact
for these magnitudes and is rendered as `2 * len(b) > 3 * len(o)`. -/
def adoptRenderedHtml (orig : Str) (rendered : Option Str) : Str :=
  match rendered with
  | none => orig
  | some b =>
    if b ≠ [] ∧ 2 * b.length > 3 * orig.length then b
    else if b ≠ [] then b
    else orig

/-- One directory entry of the root save directory, as seen by
`cleanup_old_files` (lines 555-587): its `os.path.getmtime` value in
seconds, whether `os.path.isfile` holds (else it is a directory), and
whether deleting it raises (the per-child `except` at line 580). -/
structure DirEntry where
  mtime : Int
  isFile : Bool
  faulty : Bool
deriving DecidableEq

/-- Retention threshold: `timedelta(hours=1)` at line 562, in seconds. -/
def retentionSeconds : Int := 3600

/-- Sleep between sweep cycles: `asyncio.sleep(1800)` at lines 584/587. -/
def cleanupIntervalSeconds : Nat := 1800

/-- Whether one child of the save directory survives a sweep cycle of
`cleanup_old_files`: a child whose removal raises survives (the
exception is caught per child), otherwise a file or directory is removed
exactly when its modified time is before `now - 1 hour`. -/
def cleanupKeeps (now : Int) (e : DirEntry) : Bool :=
  if e.faulty then true
  else if e.isFile then decide (¬ (e.mtime < now - retentionSeconds))
  else decide (¬ (e.mtime < now - retentionSeconds))

/-- One cycle of `cleanup_old_files` over the listed children of the save
directory: the survivors, in order. -/
def cleanup_old_files_once (now : Int) (entries : List DirEntry) : List DirEntry :=
  entries.filter (cleanupKeeps now)

/-- Regular expressions over `Char`, used to embed the anchored pattern
compiled in `is_valid_url` (lines 620-626).  Character classes are kept
as boolean predicates; acceptance is decided with Brzozowski
derivatives, which computes exact language membership — for this
pattern (no backreferences or lookarounds) that coincides with the
truthiness of Python's `re.match` against the `$`-anchored pattern. -/
inductive RE where
  | emp
  | eps
  | cls (p : Char → Bool)
  | alt (a b : RE)
  | cat (a b : RE)
  | star (a : RE)

def RE.nullable : RE → Bool
  | .emp => false
  | .eps => true
  | .cls _ => false
  | .alt a b => a.nullable || b.nullable
  | .cat a b => a.nullable && b.nullable
  | .star _ => true

/-- Smart alternation, pruning empty branches to keep derivatives small. -/
def RE.mkAlt : RE → RE → RE
  | .emp, r => r
  | r, .emp => r
  | a, b => .alt a b

/-- Smart concatenation, pruning empty and epsilon factors. -/
def RE.mkCat : RE → RE → RE
  | .emp, _ => .emp
  | _, .emp => .emp
  | .eps, r => r
  | r, .eps => r
  | a, b => .cat a b

def RE.deriv : RE → Char → RE
  | .emp, _ => .emp
  | .eps, _ => .emp
  | .cls p, c => if p c then .eps else .emp
  | .alt a b, c => .mkAlt (a.deriv c) (b.deriv c)
  | .cat a b, c =>
    if a.nullable then .mkAlt (.mkCat (a.deriv c) b) (b.deriv c)
    else .mkCat (a.deriv c) b
  | .star a, c => .mkCat (a.deriv c) (.star a)

def RE.accepts (r : RE) (s : Str) : Bool :=
  (s.foldl RE.deriv r).nullable

def RE.chr (c : Char) : RE := .cls (fun x => x == c)

/-- A literal character under `re.IGNORECASE`. -/
def RE.chrCI (c : Char) : RE := .cls (fun x => x.toLower == c)

def RE.opt (r : RE) : RE := .alt .eps r

def RE.plus (r : RE) : RE := .cat r (.star r)

/-- Bounded repetition `r{0,n}`. -/
def RE.repAtMost : Nat → RE → RE
  | 0, _ => .eps
  | n + 1, r => .alt .eps (.cat r (RE.repAtMost n r))

/-- A case-insensitive literal string. -/
def RE.strCI (s : Str) : RE := s.foldr (fun c acc => .cat (.chrCI c) acc) .eps

def isAsciiLetter (c : Char) : Bool :=
  97 ≤ c.toLower.toNat && c.toLower.toNat ≤ 122

def isAsciiDigit (c : Char) : Bool :=
  48 ≤ c.toNat && c.toNat ≤ 57

/-- ASCII whitespace recognised by the regex class `\s` (the inputs the
claims evaluate contain only ASCII, where this is exact). -/
def pyRegexSpace (c : Char) : Bool :=
  c == ' ' || c == '\t' || c == '\n' || c == '\r' || c == '\x0b' || c == '\x0c'

/-- The class `[A-Z0-9]` under `re.IGNORECASE`. -/
def reAlnum : RE := .cls (fun c => isAsciiLetter c || isAsciiDigit c)

/-- The class `[A-Z0-9-]` under `re.IGNORECASE`. -/
def reAlnumDash : RE := .cls (fun c => isAsciiLetter c || isAsciiDigit c || c == '-')

def reLetter : RE := .cls isAsciiLetter

def reDigit : RE := .cls isAsciiDigit

/-- One domain label: `[A-Z0-9](?:[A-Z0-9-]{0,61}[A-Z0-9])?\.` -/
def domainLabelRE : RE :=
  .cat reAlnum (.cat (.opt (.cat (.repAtMost 61 reAlnumDash) reAlnum)) (.chr '.'))

/-- The TLD part `[A-Z]{2,6}`. -/
def tldRE : RE := .cat reLetter (.cat reLetter (.repAtMost 4 reLetter))

/-- The domain branch `(?:label)+[A-Z]{2,6}\.?`. -/
def domainRE : RE := .cat (.plus domainLabelRE) (.cat tldRE (.opt (.chr '.')))

/-- The IP branch `\d{1,3}\.\d{1,3}\.\d{1,3}\.\d{1,3}` — note: any one to
three digits per octet, with no range check. -/
def octetRE : RE := .cat reDigit (.repAtMost 2 reDigit)

def ipRE : RE :=
  .cat octetRE (.cat (.chr '.')
    (.cat octetRE (.cat (.chr '.') (.cat octetRE (.cat (.chr '.') octetRE)))))

/-- The scheme part `https?://`. -/
def schemeRE : RE :=
  .cat (.chrCI 'h') (.cat (.chrCI 't') (.cat (.chrCI 't') (.cat (.chrCI 'p')
    (.cat (.opt (.chrCI 's')) (.cat (.chr ':') (.cat (.chr '/') (.chr '/')))))))

/-- The optional port `(?::\d+)?`. -/
def portRE : RE := .opt (.cat (.chr ':') (.plus reDigit))

/-- The tail `(?:/?|[/?]\S+)`. -/
def pathRE : RE :=
  .alt (.opt (.chr '/'))
    (.cat (.cls (fun c => c == '/' || c == '?'))
      (.plus (.cls (fun c => !(pyRegexSpace c)))))

/-- The full pattern of `is_valid_url`, lines 620-626. -/
def urlPattern : RE :=
  .cat schemeRE
    (.cat (.alt domainRE (.alt (RE.strCI "localhost".data) ipRE))
      (.cat portRE pathRE))

/-- Truthiness of `pattern.match(s)` for a `$`-anchored pattern: the
whole string is in the language, or everything before one trailing
newline is (`$` also matches just before a final newline). -/
def pyMatchDollar (r : RE) (s : Str) : Bool :=
  r.accepts s || (decide (s.getLast? = some '\n') && r.accepts s.dropLast)

/-- Embedding of `is_valid_url` (lines 613-627): prepend `https://` when
no scheme is present, then test the anchored pattern. -/
def is_valid_url (url : Str) : Bool :=
  let test := if hasUrlScheme url then url else "https://".data ++ url
  pyMatchDollar urlPattern test

/-- BeautifulSoup document tree abstraction: an element with a tag, an
ordered attribute dictionary and children, or a navigable string. -/
inductive Node where
  | text (s : Str)
  | elem (tag : Str) (attrs : List (Str × Str)) (kids : List Node)

mutual

def getTextN : Node → Str
  | .text s => s
  | .elem _ _ kids => getTextF kids

def getTextF : List Node → Str
  | [] => []
  | n :: ns => getTextN n ++ getTextF ns

end

/-- Helper for `pySplitWs`: walk the string keeping the reversed current
word in the accumulator. -/
def pySplitAux : Str → Str → List Str
  | [], acc => if acc = [] then [] else [acc.reverse]
  | c :: rest, acc =>
    if pyRegexSpace c then
      if acc = [] then pySplitAux rest []
      else acc.reverse :: pySplitAux rest []
    else pySplitAux rest (c :: acc)

/-- Python's `str.split()` with no separator: split on whitespace runs,
dropping empty pieces. -/
def pySplitWs (s : Str) : List Str := pySplitAux s []

/-- The whitespace collapse `' '.join(text.split())` from lines 156 and
166. -/
def pyCollapse (s : Str) : Str := List.intercalate [' '] (pySplitWs s)

/-- Tags decomposed before the emptiness checks, line 151. -/
def badTags : List Str := ["script".data, "style".data, "noscript".data]

mutual

def stripN (bad : List Str) : Node → Option Node
  | .text s => some (.text s)
  | .elem t a kids =>
    if t ∈ bad then none else some (.elem t a (stripF bad kids))

def stripF (bad : List Str) : List Node → List Node
  | [] => []
  | n :: ns =>
    match stripN bad n with
    | some m => m :: stripF bad ns
    | none => stripF bad ns

end

mutual

def countTagN (t : Str) : Node → Nat
  | .text _ => 0
  | .elem t2 _ kids => (if t2 = t then 1 else 0) + countTagF t kids

def countTagF (t : Str) : List Node → Nat
  | [] => 0
  | n :: ns => countTagN t n + countTagF t ns

end

mutual

def findTagN (t : Str) : Node → Option Node
  | .text _ => none
  | .elem t2 a kids => if t2 = t then some (.elem t2 a kids) else findTagF t kids

def findTagF (t : Str) : List Node → Option Node
  | [] => none
  | n :: ns =>
    match findTagN t n with
    | some m => some m
    | none => findTagF t ns

end

/-- Decision core of `is_likely_empty_page` (lines 148-178), applied to
the parsed document: decompose script/style/noscript, collapse the
visible text, then run the three threshold rules in order.  Note the
script-count rule runs against the already-decomposed tree, exactly as
in the source. -/
def is_likely_empty_core (doc : List Node) : Bool :=
  let stripped := stripF badTags doc
  let txt := pyCollapse (getTextF stripped)
  if txt.length < 100 then true
  else
    let bodyFires :=
      match findTagF "body".data stripped with
      | some b => decide ((pyCollapse (getTextN b)).length < 50)
      | none => false
    if bodyFires then true
    else if countTagF "script".data stripped > 5 ∧ txt.length < 200 then true
    else false

/-- Embedding of `is_likely_empty_page` (lines 141-178): an empty input
short-circuits to true (`if not html_content`), otherwise the parsed
tree is inspected; the parser is the external collaborator. -/
def is_likely_empty_page (parse : Str → List Node) (html : Str) : Bool :=
  if html = [] then true else is_likely_empty_core (parse html)

def c4ScriptNode : Node := .elem "script".data [] [.text "var x = 1;".data]

/-- A document with six script elements and 150 characters of visible
body text. -/
def c4SixScriptDoc : List Node :=
  [.elem "html".data []
    [.elem "head".data [] [c4ScriptNode, c4ScriptNode, c4ScriptNode],
     .elem "body".data []
       [.text (List.replicate 150 'a'), c4ScriptNode, c4ScriptNode, c4ScriptNode]]]

/-- An HTTP response as consumed by the plugin: status code, raw bytes
(`response.read()`), decoded text (`response.text()`, the decoding being
the HTTP library's concern) and the `Content-Type` header when
present. -/
structure Resp where
  status : Nat
  bytes : Bytes
  text : Str
  contentType : Option Str
deriving DecidableEq

/-- External collaborators of the inlining pipeline: the network
(`aiohttp` session; `none` models a raised timeout or connection exception),
`urllib.parse.urljoin`, and `os.path.splitext(urlparse(u).path)[1]`. -/
structure Cfg where
  fetch : Str → Option Resp
  resolve : Str → Str → Str
  extOf : Str → Str

def b64Alphabet : Str :=
  "ABCDEFGHIJKLMNOPQRSTUVWXYZabcdefghijklmnopqrstuvwxyz0123456789+/".data

def b64Char (n : Nat) : Char := b64Alphabet.getD n 'A'

/-- Standard base64 with padding, byte-compatible with Python's
`base64.b64encode` on byte values below 256. -/
def base64Encode : Bytes → Str
  | [] => []
  | [b1] => [b64Char (b1 / 4), b64Char (b1 % 4 * 16), '=', '=']
  | [b1, b2] =>
    [b64Char (b1 / 4), b64Char (b1 % 4 * 16 + b2 / 16), b64Char (b2 % 16 * 4), '=']
  | b1 :: b2 :: b3 :: rest =>
    b64Char (b1 / 4) :: b64Char (b1 % 4 * 16 + b2 / 16) ::
      b64Char (b2 % 16 * 4 + b3 / 64) :: b64Char (b3 % 64) :: base64Encode rest

def squote : Char := Char.ofNat 39

def isCssQuote (c : Char) : Bool := c == '"' || c == squote

/-- Characters admitted by the capture group of the pattern at line 448:
everything except quotes and parentheses. -/
def isCssUrlChar (c : Char) : Bool :=
  !(c == '"' || c == squote || c == '(' || c == ')')

def skipRegexWs (s : Str) : Str := s.dropWhile pyRegexSpace

/-- The optional quote consumed after the opening parenthesis. -/
def cssSkipQuote : Str → Str
  | [] => []
  | q :: t => if isCssQuote q then t else q :: t

/-- Continuation of the match after `url` `\s*` `(` has been consumed:
optional quote, the mandatory non-empty capture group, then either a
closing parenthesis directly, or a quote, optional whitespace and the
closing parenthesis.  This is the deterministic residue of the
backtracking behaviour of `url\s*\(\s*["']?([^"'()]+)["']?\s*\)`: the
greedy group can never hand characters back successfully, so the match
extends to the first reachable `)`. -/
def cssGroupOf (r2 : Str) : Str :=
  (cssSkipQuote (skipRegexWs r2)).takeWhile isCssUrlChar

def cssRestOf (r2 : Str) : Str :=
  (cssSkipQuote (skipRegexWs r2)).dropWhile isCssUrlChar

def cssAfterParen (r2 : Str) : Option (Str × Str) :=
  if cssGroupOf r2 = [] then none
  else
    match cssRestOf r2 with
    | [] => none
    | c :: r6 =>
      if c = ')' then some (cssGroupOf r2, r6)
      else if isCssQuote c then
        match skipRegexWs r6 with
        | [] => none
        | d :: r7 => if d = ')' then some (cssGroupOf r2, r7) else none
      else none

/-- Anchored match of the CSS `url(...)` pattern at the head of `s`;
returns the captured group and the suffix after the whole match. -/
def cssUrlMatchAt : Str → Option (Str × Str)
  | c1 :: c2 :: c3 :: r =>
    if c1.toLower = 'u' ∧ c2.toLower = 'r' ∧ c3.toLower = 'l' then
      match skipRegexWs r with
      | [] => none
      | c :: r2 => if c = '(' then cssAfterParen r2 else none
    else none
  | _ => none

/-- Scan of `finditer`: leftmost matches, resuming after each match.
The fuel (initially the string length) only bounds the recursion; every
step consumes at least one character, so it never truncates. -/
def cssScan : Nat → Str → Nat → List (Nat × Nat × Str)
  | 0, _, _ => []
  | fuel + 1, s, pos =>
    match cssUrlMatchAt s with
    | some (g, rem) =>
      (pos, s.length - rem.length, g) ::
        cssScan fuel rem (pos + (s.length - rem.length))
    | none =>
      match s with
      | [] => []
      | _ :: rest => cssScan fuel rest (pos + 1)

/-- All matches of the `url()` pattern in document order, as
`(start, length, group)` triples. -/
def cssFindIter (css : Str) : List (Nat × Nat × Str) := cssScan css.length css 0

/-- Python slice `s[start : start + len]`. -/
def strSlice (s : Str) (start len : Nat) : Str := (s.drop start).take len

/-- Embedding of the inner `replace_url` of `process_css_urls`
(lines 450-477) combined with the `None`-patching at line 489: `whole`
is the full matched text `match.group(0)`, `g` the captured URL.  A
skipped or failed reference keeps the original matched text. -/
def replace_url (cfg : Cfg) (cssUrl whole g : Str) : Str :=
  if g = [] then whole
  else if "data:".data.isPrefixOf g || "http://".data.isPrefixOf g ||
      "https://".data.isPrefixOf g then whole
  else
    match cfg.fetch (cfg.resolve cssUrl g) with
    | none => whole
    | some r =>
      if r.status = 200 then
        "url(data:".data ++ r.contentType.getD "application/octet-stream".data ++
          ";base64,".data ++ base64Encode r.bytes ++ ")".data
      else whole

/-- Reconstruction loop of `process_css_urls` (lines 492-498): emit the
gap before each match, then its replacement, finally the tail. -/
def cssRebuild (css : Str) : Nat → List ((Nat × Nat × Str) × Str) → Str
  | last, [] => css.drop last
  | last, (m, repl) :: rest =>
    strSlice css last (m.1 - last) ++ repl ++ cssRebuild css (m.1 + m.2.1) rest

/-- Embedding of `process_css_urls` (lines 441-503). -/
def process_css_urls (cfg : Cfg) (css cssUrl : Str) : Str :=
  let ms := cssFindIter css
  if ms = [] then css
  else
    cssRebuild css 0
      (ms.map (fun m => (m, replace_url cfg cssUrl (strSlice css m.1 m.2.1) m.2.2)))

/-- Well-formedness of a `finditer` result: matches are non-empty, have
non-empty groups, and are non-overlapping in document order starting at
or after the given position. -/
def matchesSeparated : Nat → List (Nat × Nat × Str) → Prop
  | _, [] => True
  | p, m :: rest =>
    p ≤ m.1 ∧ 1 ≤ m.2.1 ∧ m.2.2 ≠ [] ∧ matchesSeparated (m.1 + m.2.1) rest

def c3Cfg : Cfg :=
  ⟨fun u => if u = "i.png".data then
      some ⟨200, [104, 105], [], some "image/png".data⟩
    else none,
   fun _ rel => rel,
   fun _ => []⟩

abbrev Attrs := List (Str × Str)

/-- Lookup in the element's attribute dictionary. -/
def getAttr (k : Str) : Attrs → Option Str
  | [] => none
  | (k2, v) :: rest => if k2 = k then some v else getAttr k rest

/-- Assignment `tag[k] = v`: overwrite in place, or append a new key
(dict insertion-order semantics). -/
def setAttr (k v : Str) : Attrs → Attrs
  | [] => [(k, v)]
  | (k2, v2) :: rest =>
    if k2 = k then (k2, v) :: rest else (k2, v2) :: setAttr k v rest

def hasAttr (k : Str) (a : Attrs) : Bool :=
  match getAttr k a with
  | some _ => true
  | none => false

/-- Truthiness-filtering step of Python's `x or y` chains: an absent or
empty attribute value falls through. -/
def pickSource : Option Str → Option Str
  | some v => if v = [] then none else some v
  | none => none

/-- The source attribute chain of line 304:
`img.get('src') or img.get('data-src') or img.get('data-lazy-src')`. -/
def firstSource (a : Attrs) : Option Str :=
  match pickSource (getAttr "src".data a) with
  | some v => some v
  | none =>
    match pickSource (getAttr "data-src".data a) with
    | some v => some v
    | none => pickSource (getAttr "data-lazy-src".data a)

def lowerStr (s : Str) : Str := s.map Char.toLower

/-- Substring test, Python's `'png' in content_type`. -/
def strInfix (p : Str) : Str → Bool
  | [] => p.isPrefixOf []
  | c :: rest => p.isPrefixOf (c :: rest) || strInfix p rest

/-- MIME type and extension sniffing for images (lines 315-339): infix
tests on the `Content-Type` header value first, then the URL's path
extension (`extOf` models `os.path.splitext(urlparse(u).path)[1]`),
with `.jpg`/`image/jpeg` defaults. -/
def sniffImage (extOf : Str → Str) (imgUrl ct : Str) : Str × Str :=
  if strInfix "png".data ct then (".png".data, "image/png".data)
  else if strInfix "gif".data ct then (".gif".data, "image/gif".data)
  else if strInfix "webp".data ct then (".webp".data, "image/webp".data)
  else
    if extOf imgUrl ≠ [] then
      (extOf imgUrl,
        if lowerStr (extOf imgUrl) = ".png".data then "image/png".data
        else if lowerStr (extOf imgUrl) = ".gif".data then "image/gif".data
        else if lowerStr (extOf imgUrl) = ".webp".data then "image/webp".data
        else "image/jpeg".data)
    else (".jpg".data, "image/jpeg".data)

def natStr (n : Nat) : Str := (Nat.repr n).data

/-- The data URI of line 349: `data:<mime>;base64,<payload>`. -/
def dataUriOf (mime : Str) (bs : Bytes) : Str :=
  "data:".data ++ mime ++ ";base64,".data ++ base64Encode bs

/-- Handling of one `<img>` element (lines 303-356) at position `idx` of
the `find_all('img')` enumeration: returns the updated attributes and,
on success, the recorded `(path, url)` image entry together with the
`(path, bytes)` file written under the images directory. -/
def transformImg (cfg : Cfg) (base imagesDir : Str) (idx : Nat) (a : Attrs) :
    Attrs × Option ((Str × Str) × (Str × Bytes)) :=
  match firstSource a with
  | none => (a, none)
  | some srcRaw =>
    match cfg.fetch (cfg.resolve base srcRaw) with
    | none => (a, none)
    | some r =>
      if r.status = 200 then
        (setAttr "src".data
            (dataUriOf
              (sniffImage cfg.extOf (cfg.resolve base srcRaw)
                (r.contentType.getD "image/jpeg".data)).2 r.bytes) a,
          some
            ((imagesDir ++ "/img_".data ++ natStr idx ++
                (sniffImage cfg.extOf (cfg.resolve base srcRaw)
                  (r.contentType.getD "image/jpeg".data)).1,
              cfg.resolve base srcRaw),
             (imagesDir ++ "/img_".data ++ natStr idx ++
                (sniffImage cfg.extOf (cfg.resolve base srcRaw)
                  (r.contentType.getD "image/jpeg".data)).1,
              r.bytes)))
      else (a, none)

structure ImgOutN where
  node : Node
  next : Nat
  images : List (Str × Str)
  files : List (Str × Bytes)

structure ImgOutF where
  nodes : List Node
  next : Nat
  images : List (Str × Str)
  files : List (Str × Bytes)

mutual

/-- Image pass over one node: every `img` element consumes one index of
the `enumerate(img_tags)` counter (preorder, the order `find_all`
returns) and is transformed in place; all other nodes only recurse. -/
def processImgsNode (cfg : Cfg) (base imagesDir : Str) (k : Nat) : Node → ImgOutN
  | .text s => ⟨.text s, k, [], []⟩
  | .elem t a kids =>
    if t = "img".data then
      match transformImg cfg base imagesDir k a with
      | (a2, some pr) =>
        ⟨.elem t a2 (processImgsList cfg base imagesDir (k + 1) kids).nodes,
          (processImgsList cfg base imagesDir (k + 1) kids).next,
          pr.1 :: (processImgsList cfg base imagesDir (k + 1) kids).images,
          pr.2 :: (processImgsList cfg base imagesDir (k + 1) kids).files⟩
      | (a2, none) =>
        ⟨.elem t a2 (processImgsList cfg base imagesDir (k + 1) kids).nodes,
          (processImgsList cfg base imagesDir (k + 1) kids).next,
          (processImgsList cfg base imagesDir (k + 1) kids).images,
          (processImgsList cfg base imagesDir (k + 1) kids).files⟩
    else
      ⟨.elem t a (processImgsList cfg base imagesDir k kids).nodes,
        (processImgsList cfg base imagesDir k kids).next,
        (processImgsList cfg base imagesDir k kids).images,
        (processImgsList cfg base imagesDir k kids).files⟩

def processImgsList (cfg : Cfg) (base imagesDir : Str) (k : Nat) :
    List Node → ImgOutF
  | [] => ⟨[], k, [], []⟩
  | n :: ns =>
    ⟨(processImgsNode cfg base imagesDir k n).node ::
        (processImgsList cfg base imagesDir
          (processImgsNode cfg base imagesDir k n).next ns).nodes,
      (processImgsList cfg base imagesDir
        (processImgsNode cfg base imagesDir k n).next ns).next,
      (processImgsNode cfg base imagesDir k n).images ++
        (processImgsList cfg base imagesDir
          (processImgsNode cfg base imagesDir k n).next ns).images,
      (processImgsNode cfg base imagesDir k n).files ++
        (processImgsList cfg base imagesDir
          (processImgsNode cfg base imagesDir k n).next ns).files⟩

end

/-- Whether `find_all('link', rel='stylesheet')` matches this element:
tag `link` and a `rel` attribute whose whitespace-separated values
contain `stylesheet` (bs4 treats `rel` as multi-valued). -/
def isStylesheetLink (t : Str) (a : Attrs) : Bool :=
  decide (t = "link".data) &&
    (match getAttr "rel".data a with
     | some v => decide ("stylesheet".data ∈ pySplitWs v)
     | none => false)

/-- Handling of one stylesheet link (lines 360-399): `some style` when
the link is to be replaced by an inline style element carrying the
(CSS-rewritten) fetched text, `none` when the element is left as-is
(missing or empty href, fetch exception, non-200 status, or empty
CSS). -/
def linkReplacement (cfg : Cfg) (base : Str) (a : Attrs) : Option Node :=
  match getAttr "href".data a with
  | none => none
  | some href =>
    if href = [] then none
    else
      match cfg.fetch (cfg.resolve base href) with
      | none => none
      | some r =>
        if r.status = 200 then
          if r.text = [] then none
          else
            if process_css_urls cfg r.text (cfg.resolve base href) = [] then none
            else
              some (.elem "style".data []
                [.text (process_css_urls cfg r.text (cfg.resolve base href))])
        else none

mutual

def processLinksNode (cfg : Cfg) (base : Str) : Node → Node
  | .text s => .text s
  | .elem t a kids =>
    if isStylesheetLink t a then
      match linkReplacement cfg base a with
      | some n2 => n2
      | none => .elem t a (processLinksList cfg base kids)
    else .elem t a (processLinksList cfg base kids)

def processLinksList (cfg : Cfg) (base : Str) : List Node → List Node
  | [] => []
  | n :: ns => processLinksNode cfg base n :: processLinksList cfg base ns

end

/-- Whether `find_all('script', src=True)` matches this element. -/
def isExternalScript (t : Str) (a : Attrs) : Bool :=
  decide (t = "script".data) && hasAttr "src".data a

/-- Handling of one external script (lines 403-432): `some script` when
it is replaced by an inline script carrying the fetched text and every
original attribute except `src`; `none` when the element is left as-is
(empty src, `data:`/`javascript:` pseudo-URL, fetch exception or
non-200 status). -/
def scriptReplacement (cfg : Cfg) (base : Str) (a : Attrs) : Option Node :=
  match getAttr "src".data a with
  | none => none
  | some j =>
    if j = [] then none
    else if "data:".data.isPrefixOf j || "javascript:".data.isPrefixOf j then none
    else
      match cfg.fetch (cfg.resolve base j) with
      | none => none
      | some r =>
        if r.status = 200 then
          some (.elem "script".data
            (a.filter (fun p => decide (¬ p.1 = "src".data))) [.text r.text])
        else none

mutual

def processScriptsNode (cfg : Cfg) (base : Str) : Node → Node
  | .text s => .text s
  | .elem t a kids =>
    if isExternalScript t a then
      match scriptReplacement cfg base a with
      | some n2 => n2
      | none => .elem t a (processScriptsList cfg base kids)
    else .elem t a (processScriptsList cfg base kids)

def processScriptsList (cfg : Cfg) (base : Str) : List Node → List Node
  | [] => []
  | n :: ns => processScriptsNode cfg base n :: processScriptsList cfg base ns

end

def attrText (k v : Str) : Str :=
  ' ' :: (k ++ ('=' :: '"' :: (v ++ ['"'])))

def renderAttrs (a : Attrs) : Str := (a.map (fun p => attrText p.1 p.2)).flatten

mutual

/-- Deterministic serialisation standing in for `str(soup)`: what
matters for the claims is that it is a function of the tree and embeds
each attribute as ` key="value"`. -/
def renderNode : Node → Str
  | .text s => s
  | .elem t a kids =>
    '<' :: (t ++ renderAttrs a ++ ('>' :: renderList kids) ++
      ('<' :: '/' :: (t ++ ['>'])))

def renderList : List Node → Str
  | [] => []
  | n :: ns => renderNode n ++ renderList ns

end

structure DLResult where
  html : Str
  images : List (Str × Str)
  files : List (Str × Bytes)
deriving DecidableEq

/-- Embedding of `download_resources_and_update_html` (lines 282-439):
parse (external, `none` modelling the blanket `except` around the whole
body), then the three passes — images, stylesheets, scripts — then
serialisation.  `files` records the bytes written under
`page_dir/images`; on a total fault the original HTML and an empty
image list are returned. -/
def download_resources_and_update_html (parse : Str → Option (List Node))
    (cfg : Cfg) (html base_url page_dir : Str) : DLResult :=
  match parse html with
  | none => ⟨html, [], []⟩
  | some doc =>
    ⟨renderList
        (processScriptsList cfg base_url
          (processLinksList cfg base_url
            (processImgsList cfg base_url (page_dir ++ "/images".data) 0 doc).nodes)),
      (processImgsList cfg base_url (page_dir ++ "/images".data) 0 doc).images,
      (processImgsList cfg base_url (page_dir ++ "/images".data) 0 doc).files⟩

def noFetchCfg : Cfg := ⟨fun _ => none, fun _ rel => rel, fun _ => []⟩

/-- Occurrence of a node somewhere within a tree. -/
inductive Occurs (x : Node) : Node → Prop
  | here : Occurs x x
  | inChild {t : Str} {a : Attrs} {kids : List Node} {c : Node} :
      c ∈ kids → Occurs x c → Occurs x (.elem t a kids)

/-- Occurrence of a node somewhere within a forest. -/
def OccursF (x : Node) (ns : List Node) : Prop := ∃ n ∈ ns, Occurs x n

mutual

def countImgsN : Node → Nat
  | .text _ => 0
  | .elem t _ kids => (if t = "img".data then 1 else 0) + countImgsF kids

def countImgsF : List Node → Nat
  | [] => 0
  | n :: ns => countImgsN n + countImgsF ns

end

def isTextNode : Node → Bool
  | .text _ => true
  | .elem _ _ _ => false

mutual

/-- Parser-level well-formedness of trees produced by `html.parser`:
`img` and `link` are void elements (childless) and `script` elements
hold only raw text children. -/
def wfN : Node → Bool
  | .text _ => true
  | .elem t _ kids =>
    (if t = "img".data ∨ t = "link".data then kids.isEmpty else true) &&
      ((if t = "script".data then kids.all isTextNode else true) && wfF kids)

def wfF : List Node → Bool
  | [] => true
  | n :: ns => wfN n && wfF ns

end

/-- The data URI an inlined image receives (line 349). -/
def imgDataUri (cfg : Cfg) (base srcRaw : Str) (r : Resp) : Str :=
  dataUriOf
    (sniffImage cfg.extOf (cfg.resolve base srcRaw)
      (r.contentType.getD "image/jpeg".data)).2 r.bytes

/-- The on-disk path `images/img_<idx><ext>` of a saved image
(lines 342-343). -/
def imgEntryPath (cfg : Cfg) (base imagesDir srcRaw : Str) (r : Resp) (k : Nat) : Str :=
  imagesDir ++ "/img_".data ++ natStr k ++
    (sniffImage cfg.extOf (cfg.resolve base srcRaw)
      (r.contentType.getD "image/jpeg".data)).1

/-- Attributes of an image element after successful inlining. -/
def inlinedImgAttrs (cfg : Cfg) (base srcRaw : Str) (r : Resp) (attrs0 : Attrs) : Attrs :=
  setAttr "src".data (imgDataUri cfg base srcRaw r) attrs0

def c2Cfg : Cfg :=
  ⟨fun u => if u = "p.png".data then
      some ⟨200, [1, 2, 3], [], some "image/png".data⟩
    else none,
   fun _ rel => rel,
   fun _ => []⟩

def c2Doc : List Node :=
  [.elem "html".data []
    [.elem "body".data [] [.elem "img".data [("src".data, "p.png".data)] []]]]

theorem isPrefixOf_append_self : ∀ (p s : Str), p.isPrefixOf (p ++ s) = true
  | [], _ => by simp [List.isPrefixOf]
  | c :: p, s => by simp [List.isPrefixOf, isPrefixOf_append_self p s]

theorem hasUrlScheme_prepend (s : Str) :
    hasUrlScheme ("https://".data ++ s) = true := by
  simp [hasUrlScheme, isPrefixOf_append_self]

/-- C10: every URL string lacking an `http://`/`https://` prefix is
normalised by prepending the secure scheme `https://`, and normalisation
is idempotent: `normalize (normalize x) = normalize x` for every
string. -/
theorem c10_normalize_scheme_and_idempotent :
    (∀ s : Str, hasUrlScheme s = false →
      normalizeUrl s = "https://".data ++ s ∧
        hasUrlScheme (normalizeUrl s) = true) ∧
    (∀ s : Str, normalizeUrl (normalizeUrl s) = normalizeUrl s) := by
  constructor
  · intro s h
    have he : normalizeUrl s = "https://".data ++ s := by
      simp [normalizeUrl, h]
    refine ⟨he, ?_⟩
    rw [he]
    exact hasUrlScheme_prepend s
  · intro s
    by_cases h : hasUrlScheme s = true
    · simp [normalizeUrl, h]
    · have h2 : hasUrlScheme s = false := by
        cases hh : hasUrlScheme s
        · rfl
        · exact absurd hh h
      have he : normalizeUrl s = "https://".data ++ s := by
        simp [normalizeUrl, h2]
      rw [he, normalizeUrl, hasUrlScheme_prepend s]
      simp

/-- Witness for C10 at the concrete input `"example.com"`. -/
theorem c10_normalize_witness :
    hasUrlScheme "example.com".data = false ∧
    normalizeUrl "example.com".data = "https://example.com".data ∧
    normalizeUrl (normalizeUrl "example.com".data) =
      normalizeUrl "example.com".data := by
  refine ⟨by decide, ?_, c10_normalize_scheme_and_idempotent.2 _⟩
  have h :=
    (c10_normalize_scheme_and_idempotent.1 "example.com".data (by decide)).1
  rw [h]
  decide

/-- C6: when the emptiness heuristic has fired, the rendered HTML
replaces the original both when it is more than 1.5 times longer and
when it is not (any non-empty rendered HTML is adopted), while a failed
render (no HTML obtained) keeps the originally fetched HTML. -/
theorem c6_adoption_policy (orig b : Str) :
    (adoptRenderedHtml orig none = orig) ∧
    (b ≠ [] → 2 * b.length > 3 * orig.length →
      adoptRenderedHtml orig (some b) = b) ∧
    (b ≠ [] → ¬ (2 * b.length > 3 * orig.length) →
      adoptRenderedHtml orig (some b) = b) := by
  refine ⟨rfl, ?_, ?_⟩
  · intro hne hlong
    simp [adoptRenderedHtml, hne, hlong]
  · intro hne hshort
    simp [adoptRenderedHtml, hne, hshort]

/-- Witness for C6: a longer render, a shorter render and a failed render
on concrete strings. -/
theorem c6_adoption_policy_witness :
    adoptRenderedHtml "ab".data (some "abcdef".data) = "abcdef".data ∧
    adoptRenderedHtml "abcdef".data (some "ab".data) = "ab".data ∧
    adoptRenderedHtml "ab".data none = "ab".data := by
  refine ⟨?_, ?_, (c6_adoption_policy "ab".data "x".data).1⟩
  · exact (c6_adoption_policy "ab".data "abcdef".data).2.1 (by decide) (by decide)
  · exact (c6_adoption_policy "abcdef".data "ab".data).2.2 (by decide) (by decide)

/-- C9: a sweep cycle of `cleanup_old_files` removes exactly the children
modified before `now - 1 hour` (so a directory modified two hours ago is
removed and one modified ten minutes ago survives), a fault on one child
leaves that child in place without aborting its siblings, and the loop
sleeps 1800 seconds between cycles. -/
theorem c9_retention_sweep :
    (∀ (now : Int) (es : List DirEntry), (∀ e ∈ es, e.faulty = false) →
      cleanup_old_files_once now es =
        es.filter (fun e => decide (now - retentionSeconds ≤ e.mtime))) ∧
    (∀ (now : Int) (e : DirEntry), e.faulty = false →
      e.mtime = now - 7200 → cleanupKeeps now e = false) ∧
    (∀ (now : Int) (e : DirEntry), e.faulty = false →
      e.mtime = now - 600 → cleanupKeeps now e = true) ∧
    (∀ (now : Int) (pre post : List DirEntry) (f : DirEntry),
      f.faulty = true →
      cleanup_old_files_once now (pre ++ f :: post) =
        cleanup_old_files_once now pre ++ f :: cleanup_old_files_once now post) ∧
    cleanupIntervalSeconds = 1800 := by
  refine ⟨?_, ?_, ?_, ?_, rfl⟩
  · intro now es h
    apply List.filter_congr
    intro e he
    have hf : e.faulty = false := h e he
    cases hfile : e.isFile <;>
      simp [cleanupKeeps, hf, hfile, retentionSeconds]
  · intro now e hf hm
    cases hfile : e.isFile <;>
      simp [cleanupKeeps, hf, hfile, hm, retentionSeconds]
  · intro now e hf hm
    cases hfile : e.isFile <;>
      simp [cleanupKeeps, hf, hfile, hm, retentionSeconds]
  · intro now pre post f hf
    have hk : cleanupKeeps now f = true := by simp [cleanupKeeps, hf]
    simp [cleanup_old_files_once, List.filter_append, hk]

/-- Witness for C9: three concrete children at a concrete clock, one of
them two hours old, one ten minutes old, and a faulty one. -/
theorem c9_retention_sweep_witness :
    cleanup_old_files_once 100000
        [⟨100000 - 7200, false, false⟩, ⟨100000 - 600, false, false⟩] =
      [⟨100000 - 600, false, false⟩] ∧
    cleanupKeeps 100000 ⟨100000 - 7200, false, false⟩ = false ∧
    cleanupKeeps 100000 ⟨100000 - 600, false, false⟩ = true ∧
    cleanup_old_files_once 100000
        [⟨0, true, true⟩, ⟨100000 - 7200, false, false⟩] =
      [⟨0, true, true⟩] := by
  have h1 := c9_retention_sweep.1 100000
    [⟨100000 - 7200, false, false⟩, ⟨100000 - 600, false, false⟩]
    (by intro e he; fin_cases he <;> rfl)
  have h2 := c9_retention_sweep.2.1 100000 ⟨100000 - 7200, false, false⟩ rfl rfl
  have h3 := c9_retention_sweep.2.2.1 100000 ⟨100000 - 600, false, false⟩ rfl rfl
  have h4 := c9_retention_sweep.2.2.2.1 100000 []
    [⟨100000 - 7200, false, false⟩] ⟨0, true, true⟩ rfl
  refine ⟨?_, h2, h3, ?_⟩
  · rw [h1]; decide
  · simp only [List.nil_append] at h4
    rw [h4]; decide

/-- Counterexample for C5 as stated: the pattern's IP branch accepts any
one-to-three-digit octets, so `is_valid_url "http://256.256.256.256"`
returns a truthy match, not false. -/
theorem c5_ip_counterexample :
    is_valid_url "http://256.256.256.256".data = true := by decide

/-- C5 as amended: `is_valid_url` returns true for `"example.com/path"`
(after internal normalization) and `"http://localhost:8080"`, false for
`"not a url at all"`, and — because the dotted-quad branch does no range
checking — true for `"http://256.256.256.256"`. -/
theorem c5_validate_cases :
    is_valid_url "example.com/path".data = true ∧
    is_valid_url "not a url at all".data = false ∧
    is_valid_url "http://localhost:8080".data = true ∧
    is_valid_url "http://256.256.256.256".data = true := by
  refine ⟨by decide, by decide, by decide, by decide⟩

mutual

theorem countScript_stripN : ∀ (n : Node) (m : Node),
    stripN badTags n = some m → countTagN "script".data m = 0
  | .text s, m, h => by
    simp only [stripN, Option.some.injEq] at h
    subst h
    simp [countTagN]
  | .elem t a kids, m, h => by
    by_cases ht : t ∈ badTags
    · simp [stripN, ht] at h
    · simp only [stripN, if_neg ht, Option.some.injEq] at h
      subst h
      have hne : ¬ t = "script".data := by
        intro he
        exact ht (by rw [he]; simp [badTags])
      simp [countTagN, if_neg hne, countScript_stripF kids]

theorem countScript_stripF : ∀ ns : List Node,
    countTagF "script".data (stripF badTags ns) = 0
  | [] => by simp [stripF, countTagF]
  | n :: ns => by
    cases h : stripN badTags n with
    | none => simp [stripF, h, countScript_stripF ns]
    | some m =>
      simp [stripF, h, countTagF, countScript_stripN n m h, countScript_stripF ns]

end

/-- C4 fails on the code: the script-count rule of
`is_likely_empty_page` counts scripts after every script element has
already been decomposed, so the count is always zero and the rule never
fires.  On a document with six script tags and 150 characters of
visible text the function returns false, while the claim (and the
code's own comment at lines 171-174) require true. -/
theorem c4_script_branch_dead :
    (∀ doc : List Node, countTagF "script".data (stripF badTags doc) = 0) ∧
    (∀ parse : Str → List Node, is_likely_empty_page parse [] = true) ∧
    countTagF "script".data c4SixScriptDoc = 6 ∧
    (pyCollapse (getTextF (stripF badTags c4SixScriptDoc))).length = 150 ∧
    is_likely_empty_core c4SixScriptDoc = false := by
  refine ⟨countScript_stripF, ?_, by decide, by decide, by decide⟩
  intro parse
  simp [is_likely_empty_page]

theorem dropWhile_length_le (p : Char → Bool) :
    ∀ s : Str, (s.dropWhile p).length ≤ s.length
  | [] => Nat.le_refl _
  | c :: rest => by
    by_cases h : p c = true
    · rw [List.dropWhile_cons, if_pos h]
      exact Nat.le_trans (dropWhile_length_le p rest) (Nat.le_succ _)
    · rw [List.dropWhile_cons, if_neg h]

theorem skipRegexWs_length_le (s : Str) : (skipRegexWs s).length ≤ s.length :=
  dropWhile_length_le pyRegexSpace s

theorem cssSkipQuote_length_le (s : Str) : (cssSkipQuote s).length ≤ s.length := by
  cases s with
  | nil => exact Nat.le_refl _
  | cons q t =>
    rw [cssSkipQuote]
    by_cases h : isCssQuote q = true
    · rw [if_pos h]; exact Nat.le_succ _
    · rw [if_neg h]

theorem cssAfterParen_spec (r2 g rem : Str)
    (h : cssAfterParen r2 = some (g, rem)) :
    g ≠ [] ∧ rem.length < r2.length := by
  have h5le : (cssRestOf r2).length ≤ r2.length :=
    Nat.le_trans (dropWhile_length_le _ _)
      (Nat.le_trans (cssSkipQuote_length_le _) (skipRegexWs_length_le _))
  rw [cssAfterParen] at h
  by_cases hg : cssGroupOf r2 = []
  · rw [if_pos hg] at h; exact absurd h (by simp)
  · rw [if_neg hg] at h
    cases h5 : cssRestOf r2 with
    | nil => rw [h5] at h; exact absurd h (by simp)
    | cons c r6 =>
      rw [h5] at h
      simp only [] at h
      rw [h5] at h5le
      simp only [List.length_cons] at h5le
      by_cases hc : c = ')'
      · rw [if_pos hc] at h
        simp only [Option.some.injEq, Prod.mk.injEq] at h
        obtain ⟨hgeq, hreq⟩ := h
        subst hreq
        exact ⟨hgeq ▸ hg, by omega⟩
      · rw [if_neg hc] at h
        by_cases hq : isCssQuote c = true
        · rw [if_pos hq] at h
          cases h7 : skipRegexWs r6 with
          | nil => rw [h7] at h; exact absurd h (by simp)
          | cons d r7 =>
            rw [h7] at h
            simp only [] at h
            by_cases hd : d = ')'
            · rw [if_pos hd] at h
              simp only [Option.some.injEq, Prod.mk.injEq] at h
              obtain ⟨hgeq, hreq⟩ := h
              subst hreq
              have h6 : (skipRegexWs r6).length ≤ r6.length := skipRegexWs_length_le r6
              rw [h7] at h6
              simp only [List.length_cons] at h6
              exact ⟨hgeq ▸ hg, by omega⟩
            · rw [if_neg hd] at h; exact absurd h (by simp)
        · rw [if_neg hq] at h; exact absurd h (by simp)

theorem cssUrlMatchAt_spec (s g rem : Str) (h : cssUrlMatchAt s = some (g, rem)) :
    g ≠ [] ∧ rem.length < s.length := by
  match s with
  | [] => exact absurd h (by simp [cssUrlMatchAt])
  | [c1] => exact absurd h (by simp [cssUrlMatchAt])
  | [c1, c2] => exact absurd h (by simp [cssUrlMatchAt])
  | c1 :: c2 :: c3 :: r =>
    simp only [cssUrlMatchAt] at h
    by_cases hu : c1.toLower = 'u' ∧ c2.toLower = 'r' ∧ c3.toLower = 'l'
    · rw [if_pos hu] at h
      cases hw : skipRegexWs r with
      | nil => rw [hw] at h; exact absurd h (by simp)
      | cons c r2 =>
        rw [hw] at h
        simp only [] at h
        by_cases hc : c = '('
        · rw [if_pos hc] at h
          have hs := cssAfterParen_spec r2 g rem h
          have hr2 : r2.length < r.length := by
            have hle := skipRegexWs_length_le r
            rw [hw] at hle
            simp only [List.length_cons] at hle
            omega
          refine ⟨hs.1, ?_⟩
          simp only [List.length_cons]
          omega
        · rw [if_neg hc] at h; exact absurd h (by simp)
    · rw [if_neg hu] at h; exact absurd h (by simp)

theorem matchesSeparated_mono : ∀ (ms : List (Nat × Nat × Str)) (p q : Nat),
    p ≤ q → matchesSeparated q ms → matchesSeparated p ms
  | [], _, _, _, _ => trivial
  | _ :: _, _, _, hpq, h => ⟨Nat.le_trans hpq h.1, h.2.1, h.2.2.1, h.2.2.2⟩

theorem cssScan_separated : ∀ (fuel : Nat) (s : Str) (pos : Nat),
    matchesSeparated pos (cssScan fuel s pos)
  | 0, s, pos => by simp [cssScan, matchesSeparated]
  | fuel + 1, s, pos => by
    simp only [cssScan]
    cases hm : cssUrlMatchAt s with
    | some gr =>
      obtain ⟨g, rem⟩ := gr
      have hs := cssUrlMatchAt_spec s g rem hm
      have hlt := hs.2
      refine ⟨Nat.le_refl pos, ?_, hs.1, cssScan_separated fuel rem _⟩
      show 1 ≤ s.length - rem.length
      omega
    | none =>
      cases s with
      | nil => simp [matchesSeparated]
      | cons c rest =>
        exact matchesSeparated_mono _ pos (pos + 1) (Nat.le_succ pos)
          (cssScan_separated fuel rest (pos + 1))

theorem strSlice_glue (css : Str) (a b : Nat) (hab : a ≤ b) :
    strSlice css a (b - a) ++ css.drop b = css.drop a := by
  have hD : css.drop b = (css.drop a).drop (b - a) := by
    rw [List.drop_drop]
    congr 1
    omega
  rw [strSlice, hD]
  exact List.take_append_drop _ _

theorem strSlice_glue2 (css : Str) (a l : Nat) :
    strSlice css a l ++ css.drop (a + l) = css.drop a := by
  have hD : css.drop (a + l) = (css.drop a).drop l := by rw [List.drop_drop]
  rw [strSlice, hD]
  exact List.take_append_drop _ _

/-- C3: on a CSS text whose `url()` scan finds exactly two references,
the first fetching successfully and the second failing, the rewritten
text is the original with only the first matched span replaced by
`url(data:<mime>;base64,<payload>)`: everything before it, the gap
between the matches, the second (failed) match and the tail are
preserved verbatim, each match being processed independently. -/
theorem c3_css_two_url_rewrite
    (cfg : Cfg) (css cssUrl : Str) (s1 l1 s2 l2 : Nat) (g1 g2 : Str) (r : Resp)
    (hms : cssFindIter css = [(s1, l1, g1), (s2, l2, g2)])
    (hd1 : "data:".data.isPrefixOf g1 = false)
    (hh1 : "http://".data.isPrefixOf g1 = false)
    (hh2 : "https://".data.isPrefixOf g1 = false)
    (hfetch : cfg.fetch (cfg.resolve cssUrl g1) = some r)
    (hstatus : r.status = 200)
    (hfail : cfg.fetch (cfg.resolve cssUrl g2) = none) :
    process_css_urls cfg css cssUrl =
      css.take s1 ++
        ("url(data:".data ++ r.contentType.getD "application/octet-stream".data ++
          ";base64,".data ++ base64Encode r.bytes ++ ")".data) ++
        css.drop (s1 + l1) := by
  have hsep : matchesSeparated 0 (cssFindIter css) := cssScan_separated css.length css 0
  rw [hms] at hsep
  obtain ⟨-, hl1, hg1, hsep2⟩ := hsep
  obtain ⟨hm12, hl2, hg2, -⟩ := hsep2
  dsimp only at hl1 hg1 hm12 hl2 hg2
  have hr1 : replace_url cfg cssUrl (strSlice css s1 l1) g1 =
      "url(data:".data ++ r.contentType.getD "application/octet-stream".data ++
        ";base64,".data ++ base64Encode r.bytes ++ ")".data := by
    rw [replace_url, if_neg hg1, if_neg (by simp [hd1, hh1, hh2]), hfetch]
    simp only []
    rw [if_pos hstatus]
  have hr2 : replace_url cfg cssUrl (strSlice css s2 l2) g2 = strSlice css s2 l2 := by
    by_cases hp : ("data:".data.isPrefixOf g2 || "http://".data.isPrefixOf g2 ||
        "https://".data.isPrefixOf g2) = true
    · rw [replace_url, if_neg hg2, if_pos hp]
    · rw [replace_url, if_neg hg2, if_neg hp, hfail]
  simp only [process_css_urls, hms]
  rw [if_neg (by simp)]
  simp only [List.map_cons, List.map_nil, cssRebuild]
  rw [hr1, hr2]
  have e1 : strSlice css s2 l2 ++ css.drop (s2 + l2) = css.drop s2 :=
    strSlice_glue2 css s2 l2
  have e2 : strSlice css (s1 + l1) (s2 - (s1 + l1)) ++ css.drop s2 =
      css.drop (s1 + l1) := strSlice_glue css (s1 + l1) s2 hm12
  have e3 : strSlice css 0 (s1 - 0) = css.take s1 := by
    simp [strSlice]
  simp only [List.append_assoc]
  rw [e1, e2, e3]

/-- Witness for C3 on a concrete stylesheet with two `url()` references,
the first resolving and the second failing. -/
theorem c3_css_two_url_rewrite_witness :
    process_css_urls c3Cfg "x: url(i.png) y: url(j.png)".data "c.css".data =
      "x: url(data:image/png;base64,aGk=) y: url(j.png)".data := by
  have h := c3_css_two_url_rewrite c3Cfg "x: url(i.png) y: url(j.png)".data
    "c.css".data 3 10 17 10 "i.png".data "j.png".data
    ⟨200, [104, 105], [], some "image/png".data⟩
    (by decide) (by decide) (by decide) (by decide) (by decide) (by decide)
    (by decide)
  rw [h]
  decide

theorem linkReplacement_some_shape (cfg : Cfg) (base : Str) (a : Attrs)
    (n2 : Node) (hrep : linkReplacement cfg base a = some n2) :
    ∃ href r, getAttr "href".data a = some href ∧
      cfg.fetch (cfg.resolve base href) = some r ∧ r.status = 200 ∧
      r.text ≠ [] ∧
      n2 = .elem "style".data []
        [.text (process_css_urls cfg r.text (cfg.resolve base href))] := by
  rw [linkReplacement] at hrep
  cases hh : getAttr "href".data a with
  | none => rw [hh] at hrep; simp at hrep
  | some href =>
    rw [hh] at hrep
    simp only [] at hrep
    by_cases hhe : href = []
    · rw [if_pos hhe] at hrep; simp at hrep
    · rw [if_neg hhe] at hrep
      cases hf : cfg.fetch (cfg.resolve base href) with
      | none => rw [hf] at hrep; simp at hrep
      | some r =>
        rw [hf] at hrep
        simp only [] at hrep
        by_cases hs : r.status = 200
        · rw [if_pos hs] at hrep
          by_cases ht : r.text = []
          · rw [if_pos ht] at hrep; simp at hrep
          · rw [if_neg ht] at hrep
            by_cases hcss : process_css_urls cfg r.text (cfg.resolve base href) = []
            · rw [if_pos hcss] at hrep; simp at hrep
            · rw [if_neg hcss] at hrep
              simp only [Option.some.injEq] at hrep
              exact ⟨href, r, rfl, hf, hs, ht, hrep.symm⟩
        · rw [if_neg hs] at hrep; simp at hrep

/-- C1: every reference the inliner handles ends in one of the claim's
three buckets and none is dropped: an image `src` is either rewritten
to a `data:` URI (fetch success) or left with exactly its original
attributes (no/empty source, fetch exception, non-200); a stylesheet
link is replaced by an inline `<style>` carrying the fetched CSS or
left untouched; a script `src` starting with `data:`/`javascript:` is
skipped, otherwise the element is inlined on success and left untouched
on failure; a CSS `url()` reference that is a `data:` or absolute
http(s) URL is skipped, otherwise it becomes a `data:` URI on success
and keeps its original matched text on failure. -/
theorem c1_reference_disjunction (cfg : Cfg) (base imagesDir cssUrl whole g : Str)
    (idx : Nat) (a : Attrs) :
    (firstSource a = none → transformImg cfg base imagesDir idx a = (a, none)) ∧
    (∀ src, firstSource a = some src → cfg.fetch (cfg.resolve base src) = none →
      transformImg cfg base imagesDir idx a = (a, none)) ∧
    (∀ src r, firstSource a = some src → cfg.fetch (cfg.resolve base src) = some r →
      r.status ≠ 200 → transformImg cfg base imagesDir idx a = (a, none)) ∧
    (∀ src r, firstSource a = some src → cfg.fetch (cfg.resolve base src) = some r →
      r.status = 200 →
      (transformImg cfg base imagesDir idx a).1 =
        setAttr "src".data
          (dataUriOf
            (sniffImage cfg.extOf (cfg.resolve base src)
              (r.contentType.getD "image/jpeg".data)).2 r.bytes) a ∧
      "data:".data.isPrefixOf
        (dataUriOf
          (sniffImage cfg.extOf (cfg.resolve base src)
            (r.contentType.getD "image/jpeg".data)).2 r.bytes) = true) ∧
    (linkReplacement cfg base a = none →
      ∀ t, processLinksNode cfg base (.elem t a []) = .elem t a []) ∧
    (∀ n2, linkReplacement cfg base a = some n2 →
      ∃ href r, getAttr "href".data a = some href ∧
        cfg.fetch (cfg.resolve base href) = some r ∧ r.status = 200 ∧
        r.text ≠ [] ∧
        n2 = .elem "style".data []
          [.text (process_css_urls cfg r.text (cfg.resolve base href))]) ∧
    (∀ j, getAttr "src".data a = some j →
      ("data:".data.isPrefixOf j = true ∨ "javascript:".data.isPrefixOf j = true) →
      scriptReplacement cfg base a = none) ∧
    (∀ j, getAttr "src".data a = some j →
      cfg.fetch (cfg.resolve base j) = none → scriptReplacement cfg base a = none) ∧
    (∀ j r, getAttr "src".data a = some j → j ≠ [] →
      "data:".data.isPrefixOf j = false → "javascript:".data.isPrefixOf j = false →
      cfg.fetch (cfg.resolve base j) = some r → r.status = 200 →
      scriptReplacement cfg base a =
        some (.elem "script".data
          (a.filter (fun p => decide (¬ p.1 = "src".data))) [.text r.text])) ∧
    (scriptReplacement cfg base a = none →
      ∀ t, processScriptsNode cfg base (.elem t a []) = .elem t a []) ∧
    ("data:".data.isPrefixOf g = true ∨ "http://".data.isPrefixOf g = true ∨
        "https://".data.isPrefixOf g = true →
      replace_url cfg cssUrl whole g = whole) ∧
    (cfg.fetch (cfg.resolve cssUrl g) = none →
      replace_url cfg cssUrl whole g = whole) ∧
    (g ≠ [] → "data:".data.isPrefixOf g = false → "http://".data.isPrefixOf g = false →
      "https://".data.isPrefixOf g = false →
      ∀ r, cfg.fetch (cfg.resolve cssUrl g) = some r → r.status = 200 →
      replace_url cfg cssUrl whole g =
        "url(data:".data ++ r.contentType.getD "application/octet-stream".data ++
          ";base64,".data ++ base64Encode r.bytes ++ ")".data) := by
  refine ⟨?_, ?_, ?_, ?_, ?_, ?_, ?_, ?_, ?_, ?_, ?_, ?_, ?_⟩
  · intro h; simp [transformImg, h]
  · intro src h hf; simp [transformImg, h, hf]
  · intro src r h hf hs; simp [transformImg, h, hf, hs]
  · intro src r h hf hs
    constructor
    · simp [transformImg, h, hf, hs]
    · exact isPrefixOf_append_self "data:".data _
  · intro hrep t
    by_cases hsl : isStylesheetLink t a = true
    · simp [processLinksNode, hsl, hrep, processLinksList]
    · simp [processLinksNode, hsl, processLinksList]
  · intro n2 hrep
    exact linkReplacement_some_shape cfg base a n2 hrep
  · intro j hj hpre
    have hp : ("data:".data.isPrefixOf j || "javascript:".data.isPrefixOf j) = true := by
      rcases hpre with h | h <;> simp [h]
    have hjne : j ≠ [] := by
      intro he
      subst he
      rcases hpre with h | h <;> simp [List.isPrefixOf] at h
    simp [scriptReplacement, hj, hjne, hp]
  · intro j hj hf
    by_cases hje : j = []
    · simp [scriptReplacement, hj, hje]
    · by_cases hp : ("data:".data.isPrefixOf j || "javascript:".data.isPrefixOf j) = true
      · simp [scriptReplacement, hj, hje, hp]
      · simp [scriptReplacement, hj, hje, hp, hf]
  · intro j r hj hje hp1 hp2 hf hs
    simp [scriptReplacement, hj, hje, hp1, hp2, hf, hs]
  · intro hrep t
    by_cases hsc : isExternalScript t a = true
    · simp [processScriptsNode, hsc, hrep, processScriptsList]
    · simp [processScriptsNode, hsc, processScriptsList]
  · intro hpre
    by_cases hgE : g = []
    · simp [replace_url, hgE]
    · have hp : ("data:".data.isPrefixOf g || "http://".data.isPrefixOf g ||
          "https://".data.isPrefixOf g) = true := by
        rcases hpre with h | h | h <;> simp [h]
      simp [replace_url, hgE, hp]
  · intro hf
    by_cases hgE : g = []
    · simp [replace_url, hgE]
    · by_cases hp : ("data:".data.isPrefixOf g || "http://".data.isPrefixOf g ||
          "https://".data.isPrefixOf g) = true
      · simp [replace_url, hgE, hp]
      · simp [replace_url, hgE, hp, hf]
  · intro hgE hp1 hp2 hp3 r hf hs
    simp [replace_url, hgE, hp1, hp2, hp3, hf, hs]

/-- Witness for C1: a failed image fetch keeps the attributes, a `data:`
CSS reference keeps its matched text, a failed stylesheet fetch keeps
the link element, and a `javascript:` script source is skipped. -/
theorem c1_reference_disjunction_witness :
    transformImg noFetchCfg "b".data "d".data 0 [("src".data, "x.png".data)] =
      ([("src".data, "x.png".data)], none) ∧
    replace_url noFetchCfg "c.css".data "url(data:x)".data "data:x".data =
      "url(data:x)".data ∧
    processLinksNode noFetchCfg "b".data
        (.elem "link".data
          [("rel".data, "stylesheet".data), ("href".data, "s.css".data)] []) =
      .elem "link".data
        [("rel".data, "stylesheet".data), ("href".data, "s.css".data)] [] ∧
    processScriptsNode noFetchCfg "b".data
        (.elem "script".data [("src".data, "javascript:void(0)".data)] []) =
      .elem "script".data [("src".data, "javascript:void(0)".data)] [] := by
  refine ⟨?_, ?_, ?_, ?_⟩
  · exact (c1_reference_disjunction noFetchCfg "b".data "d".data [] [] [] 0
      [("src".data, "x.png".data)]).2.1 "x.png".data (by decide) rfl
  · exact (c1_reference_disjunction noFetchCfg "b".data "d".data "c.css".data
      "url(data:x)".data "data:x".data 0 []).2.2.2.2.2.2.2.2.2.2.1
      (Or.inl (by decide))
  · exact (c1_reference_disjunction noFetchCfg "b".data "d".data [] [] [] 0
      [("rel".data, "stylesheet".data), ("href".data, "s.css".data)]).2.2.2.2.1
      rfl "link".data
  · have h := (c1_reference_disjunction noFetchCfg "b".data "d".data [] [] [] 0
      [("src".data, "javascript:void(0)".data)])
    exact h.2.2.2.2.2.2.2.2.2.1
      (h.2.2.2.2.2.2.1 "javascript:void(0)".data rfl (Or.inr (by decide)))
      "script".data

/-- C7: `download_resources_and_update_html` never raises past its
boundary.  A total parse/unexpected fault (modelled by the parse oracle
returning `none`, the blanket `except` of lines 437-439) yields the
original HTML with an empty image list; a per-resource fetch failure
leaves that element unchanged while the pass continues with the
following siblings in all three passes. -/
theorem c7_fault_tolerance :
    (∀ (parse : Str → Option (List Node)) (cfg : Cfg) (html base page_dir : Str),
      parse html = none →
      download_resources_and_update_html parse cfg html base page_dir =
        ⟨html, [], []⟩) ∧
    (∀ (cfg : Cfg) (base imagesDir src : Str) (k : Nat) (a : Attrs) (ns : List Node),
      firstSource a = some src → cfg.fetch (cfg.resolve base src) = none →
      processImgsList cfg base imagesDir k (.elem "img".data a [] :: ns) =
        ⟨.elem "img".data a [] ::
            (processImgsList cfg base imagesDir (k + 1) ns).nodes,
          (processImgsList cfg base imagesDir (k + 1) ns).next,
          (processImgsList cfg base imagesDir (k + 1) ns).images,
          (processImgsList cfg base imagesDir (k + 1) ns).files⟩) ∧
    (∀ (cfg : Cfg) (base t : Str) (a : Attrs) (ns : List Node),
      linkReplacement cfg base a = none →
      processLinksList cfg base (.elem t a [] :: ns) =
        .elem t a [] :: processLinksList cfg base ns) ∧
    (∀ (cfg : Cfg) (base t : Str) (a : Attrs) (ns : List Node),
      scriptReplacement cfg base a = none →
      processScriptsList cfg base (.elem t a [] :: ns) =
        .elem t a [] :: processScriptsList cfg base ns) := by
  refine ⟨?_, ?_, ?_, ?_⟩
  · intro parse cfg html base page_dir h
    simp [download_resources_and_update_html, h]
  · intro cfg base imagesDir src k a ns hsrc hf
    have ht : transformImg cfg base imagesDir k a = (a, none) := by
      simp [transformImg, hsrc, hf]
    simp [processImgsList, processImgsNode, ht]
  · intro cfg base t a ns hrep
    have hn : processLinksNode cfg base (.elem t a []) = .elem t a [] := by
      by_cases hsl : isStylesheetLink t a = true
      · simp [processLinksNode, hsl, hrep, processLinksList]
      · simp [processLinksNode, hsl, processLinksList]
    simp [processLinksList, hn]
  · intro cfg base t a ns hrep
    have hn : processScriptsNode cfg base (.elem t a []) = .elem t a [] := by
      by_cases hsc : isExternalScript t a = true
      · simp [processScriptsNode, hsc, hrep, processScriptsList]
      · simp [processScriptsNode, hsc, processScriptsList]
    simp [processScriptsList, hn]

/-- Witness for C7: a failing parse falls back to the input, and each
pass skips an element whose fetch raises while still processing the
remaining elements. -/
theorem c7_fault_tolerance_witness :
    download_resources_and_update_html (fun _ => none) noFetchCfg "<p>x</p>".data
        "b".data "d".data = ⟨"<p>x</p>".data, [], []⟩ ∧
    processImgsList noFetchCfg "b".data "d".data 0
        [.elem "img".data [("src".data, "x.png".data)] [], .text "t".data] =
      ⟨[.elem "img".data [("src".data, "x.png".data)] [], .text "t".data],
        1, [], []⟩ ∧
    processLinksList noFetchCfg "b".data
        [.elem "link".data
          [("rel".data, "stylesheet".data), ("href".data, "s.css".data)] [],
         .text "t".data] =
      [.elem "link".data
        [("rel".data, "stylesheet".data), ("href".data, "s.css".data)] [],
       .text "t".data] ∧
    processScriptsList noFetchCfg "b".data
        [.elem "script".data [("src".data, "a.js".data)] [], .text "t".data] =
      [.elem "script".data [("src".data, "a.js".data)] [], .text "t".data] := by
  refine ⟨?_, ?_, ?_, ?_⟩
  · exact c7_fault_tolerance.1 (fun _ => none) noFetchCfg "<p>x</p>".data
      "b".data "d".data rfl
  · rw [c7_fault_tolerance.2.1 noFetchCfg "b".data "d".data "x.png".data 0
      [("src".data, "x.png".data)] [.text "t".data] (by decide) rfl]
    rfl
  · rw [c7_fault_tolerance.2.2.1 noFetchCfg "b".data "link".data
      [("rel".data, "stylesheet".data), ("href".data, "s.css".data)]
      [.text "t".data] rfl]
    rfl
  · rw [c7_fault_tolerance.2.2.2 noFetchCfg "b".data "script".data
      [("src".data, "a.js".data)] [.text "t".data] rfl]
    rfl

/-- C8: a stylesheet link whose CSS fetch raises, returns a non-200
status, or returns empty CSS text, passes through the stylesheet pass
unchanged — its serialisation is byte-identical to the pre-inlining
element — and a link element that does change was necessarily replaced
by an inline `<style>` carrying the rewritten CSS of a successful,
non-empty fetch. -/
theorem c8_link_preserved_on_failure (cfg : Cfg) (base t : Str) (a : Attrs) :
    (∀ href, getAttr "href".data a = some href →
      cfg.fetch (cfg.resolve base href) = none →
      processLinksNode cfg base (.elem t a []) = .elem t a [] ∧
      renderNode (processLinksNode cfg base (.elem t a [])) =
        renderNode (.elem t a [])) ∧
    (∀ href r, getAttr "href".data a = some href →
      cfg.fetch (cfg.resolve base href) = some r → r.status ≠ 200 →
      processLinksNode cfg base (.elem t a []) = .elem t a []) ∧
    (∀ href r, getAttr "href".data a = some href →
      cfg.fetch (cfg.resolve base href) = some r → r.status = 200 → r.text = [] →
      processLinksNode cfg base (.elem t a []) = .elem t a []) ∧
    (processLinksNode cfg base (.elem t a []) ≠ .elem t a [] →
      ∃ href r, getAttr "href".data a = some href ∧
        cfg.fetch (cfg.resolve base href) = some r ∧ r.status = 200 ∧
        r.text ≠ [] ∧
        processLinksNode cfg base (.elem t a []) =
          .elem "style".data []
            [.text (process_css_urls cfg r.text (cfg.resolve base href))]) := by
  have hkeep : linkReplacement cfg base a = none →
      processLinksNode cfg base (.elem t a []) = .elem t a [] := by
    intro hrep
    by_cases hsl : isStylesheetLink t a = true
    · simp [processLinksNode, hsl, hrep, processLinksList]
    · simp [processLinksNode, hsl, processLinksList]
  refine ⟨?_, ?_, ?_, ?_⟩
  · intro href hh hf
    have h0 : linkReplacement cfg base a = none := by
      by_cases hhe : href = []
      · simp [linkReplacement, hh, hhe]
      · simp [linkReplacement, hh, hhe, hf]
    have h1 := hkeep h0
    exact ⟨h1, by rw [h1]⟩
  · intro href r hh hf hs
    apply hkeep
    by_cases hhe : href = []
    · simp [linkReplacement, hh, hhe]
    · simp [linkReplacement, hh, hhe, hf, hs]
  · intro href r hh hf hs ht
    apply hkeep
    by_cases hhe : href = []
    · simp [linkReplacement, hh, hhe]
    · simp [linkReplacement, hh, hhe, hf, hs, ht]
  · intro hne
    cases hrep : linkReplacement cfg base a with
    | none => exact absurd (hkeep hrep) hne
    | some n2 =>
      have hsl : isStylesheetLink t a = true := by
        by_contra hsl
        exact hne (by simp [processLinksNode, hsl, processLinksList])
      obtain ⟨href, r, hh, hf, hs, htx, hshape⟩ :=
        linkReplacement_some_shape cfg base a n2 hrep
      refine ⟨href, r, hh, hf, hs, htx, ?_⟩
      rw [processLinksNode]
      rw [if_pos hsl, hrep, hshape]

/-- Witness for C8: a concrete stylesheet link whose fetch raises is
kept byte-identically. -/
theorem c8_link_preserved_on_failure_witness :
    processLinksNode noFetchCfg "b".data
        (.elem "link".data
          [("rel".data, "stylesheet".data), ("href".data, "s.css".data)] []) =
      .elem "link".data
        [("rel".data, "stylesheet".data), ("href".data, "s.css".data)] [] ∧
    renderNode (processLinksNode noFetchCfg "b".data
        (.elem "link".data
          [("rel".data, "stylesheet".data), ("href".data, "s.css".data)] [])) =
      renderNode (.elem "link".data
        [("rel".data, "stylesheet".data), ("href".data, "s.css".data)] []) :=
  (c8_link_preserved_on_failure noFetchCfg "b".data "link".data
    [("rel".data, "stylesheet".data), ("href".data, "s.css".data)]).1
    "s.css".data rfl rfl

theorem countImgsF_ge_mem : ∀ (ns : List Node) (n : Node), n ∈ ns →
    countImgsN n ≤ countImgsF ns
  | m :: ns, n, h => by
    cases h with
    | head => rw [countImgsF]; exact Nat.le_add_right _ _
    | tail _ hmem =>
      rw [countImgsF]
      exact Nat.le_trans (countImgsF_ge_mem ns n hmem) (Nat.le_add_left _ _)

theorem count_pos_of_occurs (attrs0 : Attrs) (n : Node)
    (h : Occurs (.elem "img".data attrs0 []) n) : 1 ≤ countImgsN n := by
  induction h with
  | here => simp [countImgsN, countImgsF]
  | inChild hmem hocc ih =>
    rename_i t a kids c
    rw [countImgsN]
    have h1 : 1 ≤ countImgsF kids :=
      Nat.le_trans ih (countImgsF_ge_mem kids c hmem)
    omega

theorem wfF_mem : ∀ (ns : List Node) (n : Node), wfF ns = true → n ∈ ns →
    wfN n = true
  | m :: ns, n, hwf, h => by
    rw [wfF, Bool.and_eq_true] at hwf
    cases h with
    | head => exact hwf.1
    | tail _ hmem => exact wfF_mem ns n hwf.2 hmem

theorem occurs_elem_not_text (attrs0 : Attrs) (s : Str)
    (h : Occurs (.elem "img".data attrs0 []) (.text s)) : False := by
  cases h

mutual

theorem imgsZeroN (cfg : Cfg) (base imagesDir : Str) :
    ∀ (k : Nat) (n : Node), countImgsN n = 0 →
      processImgsNode cfg base imagesDir k n = ⟨n, k, [], []⟩
  | k, .text s, _ => by simp [processImgsNode]
  | k, .elem t a kids, h => by
    rw [countImgsN] at h
    have hne : ¬ t = "img".data := by
      intro he
      rw [if_pos he] at h
      omega
    have hkids : countImgsF kids = 0 := by
      rw [if_neg hne] at h
      omega
    rw [processImgsNode, if_neg hne, imgsZeroF cfg base imagesDir k kids hkids]

theorem imgsZeroF (cfg : Cfg) (base imagesDir : Str) :
    ∀ (k : Nat) (ns : List Node), countImgsF ns = 0 →
      processImgsList cfg base imagesDir k ns = ⟨ns, k, [], []⟩
  | k, [], _ => by simp [processImgsList]
  | k, n :: ns, h => by
    rw [countImgsF] at h
    have h1 : countImgsN n = 0 := by omega
    have h2 : countImgsF ns = 0 := by omega
    rw [processImgsList, imgsZeroN cfg base imagesDir k n h1]
    rw [imgsZeroF cfg base imagesDir k ns h2]
    simp

end

theorem transformImg_success (cfg : Cfg) (base imagesDir srcRaw : Str) (r : Resp)
    (k : Nat) (attrs0 : Attrs)
    (hsrc : firstSource attrs0 = some srcRaw)
    (hfetch : cfg.fetch (cfg.resolve base srcRaw) = some r)
    (hstat : r.status = 200) :
    transformImg cfg base imagesDir k attrs0 =
      (inlinedImgAttrs cfg base srcRaw r attrs0,
        some ((imgEntryPath cfg base imagesDir srcRaw r k, cfg.resolve base srcRaw),
          (imgEntryPath cfg base imagesDir srcRaw r k, r.bytes))) := by
  simp [transformImg, hsrc, hfetch, hstat, inlinedImgAttrs, imgEntryPath, imgDataUri]

mutual

theorem imgsOneN (cfg : Cfg) (base imagesDir : Str) (attrs0 : Attrs)
    (srcRaw : Str) (r : Resp)
    (hsrc : firstSource attrs0 = some srcRaw)
    (hfetch : cfg.fetch (cfg.resolve base srcRaw) = some r)
    (hstat : r.status = 200) :
    ∀ (k : Nat) (n : Node), wfN n = true → countImgsN n = 1 →
      Occurs (.elem "img".data attrs0 []) n →
      ∃ n2 : Node,
        processImgsNode cfg base imagesDir k n =
          ⟨n2, k + 1,
            [(imgEntryPath cfg base imagesDir srcRaw r k, cfg.resolve base srcRaw)],
            [(imgEntryPath cfg base imagesDir srcRaw r k, r.bytes)]⟩ ∧
        Occurs (.elem "img".data (inlinedImgAttrs cfg base srcRaw r attrs0) []) n2 ∧
        wfN n2 = true
  | k, .text s, _, hcount, _ => by simp [countImgsN] at hcount
  | k, .elem t a kids, hwf, hcount, hocc => by
    by_cases ht : t = "img".data
    · subst ht
      have hkids : kids = [] := by
        rw [wfN, Bool.and_eq_true, Bool.and_eq_true] at hwf
        have h1 := hwf.1
        rw [if_pos (Or.inl rfl)] at h1
        exact List.isEmpty_iff.mp h1
      subst hkids
      have ha : a = attrs0 := by
        cases hocc with
        | here => rfl
        | inChild hmem hocc2 => exact absurd hmem (List.not_mem_nil _)
      subst ha
      refine ⟨.elem "img".data (inlinedImgAttrs cfg base srcRaw r a) [],
        ?_, Occurs.here, ?_⟩
      · simp [processImgsNode,
          transformImg_success cfg base imagesDir srcRaw r k a hsrc hfetch hstat,
          processImgsList]
      · simp [wfN, wfF]
    · have hcf : countImgsF kids = 1 := by
        rw [countImgsN, if_neg ht] at hcount
        omega
      rw [wfN, Bool.and_eq_true, Bool.and_eq_true] at hwf
      obtain ⟨hwf1, hwf2, hwfkids⟩ := hwf
      cases hocc with
      | here => exact absurd rfl ht
      | inChild hmem hocc2 =>
        rename_i c
        obtain ⟨ns2, heq, hocc2F, hwf2F⟩ :=
          imgsOneF cfg base imagesDir attrs0 srcRaw r hsrc hfetch hstat k kids
            hwfkids hcf ⟨c, hmem, hocc2⟩
        refine ⟨.elem t a ns2, ?_, ?_, ?_⟩
        · rw [processImgsNode]
          rw [if_neg ht, heq]
        · obtain ⟨c2, hc2mem, hc2occ⟩ := hocc2F
          exact Occurs.inChild hc2mem hc2occ
        · rw [wfN]
          simp only [Bool.and_eq_true]
          have hnl : ¬ (t = "img".data ∨ t = "link".data) := by
            intro hor
            rcases hor with h | h
            · exact ht h
            · rw [if_pos (Or.inr h)] at hwf1
              rw [List.isEmpty_iff.mp hwf1] at hmem
              exact absurd hmem (List.not_mem_nil _)
          have hns : ¬ t = "script".data := by
            intro hscr
            rw [if_pos hscr] at hwf2
            rw [List.all_eq_true] at hwf2
            have hct := hwf2 c hmem
            cases c with
            | text s2 => exact occurs_elem_not_text attrs0 s2 hocc2
            | elem tc ac kc => simp [isTextNode] at hct
          rw [if_neg hnl, if_neg hns]
          exact ⟨rfl, rfl, hwf2F⟩

theorem imgsOneF (cfg : Cfg) (base imagesDir : Str) (attrs0 : Attrs)
    (srcRaw : Str) (r : Resp)
    (hsrc : firstSource attrs0 = some srcRaw)
    (hfetch : cfg.fetch (cfg.resolve base srcRaw) = some r)
    (hstat : r.status = 200) :
    ∀ (k : Nat) (ns : List Node), wfF ns = true → countImgsF ns = 1 →
      OccursF (.elem "img".data attrs0 []) ns →
      ∃ ns2 : List Node,
        processImgsList cfg base imagesDir k ns =
          ⟨ns2, k + 1,
            [(imgEntryPath cfg base imagesDir srcRaw r k, cfg.resolve base srcRaw)],
            [(imgEntryPath cfg base imagesDir srcRaw r k, r.bytes)]⟩ ∧
        OccursF (.elem "img".data (inlinedImgAttrs cfg base srcRaw r attrs0) []) ns2 ∧
        wfF ns2 = true
  | k, [], _, hcount, _ => by simp [countImgsF] at hcount
  | k, n :: ns, hwf, hcount, hocc => by
    rw [wfF, Bool.and_eq_true] at hwf
    rw [countImgsF] at hcount
    obtain ⟨m, hm, hmocc⟩ := hocc
    by_cases hcn : countImgsN n = 1
    · have hct : countImgsF ns = 0 := by omega
      have hoccHead : Occurs (.elem "img".data attrs0 []) n := by
        cases hm with
        | head => exact hmocc
        | tail _ hmem =>
          exfalso
          have h1 := count_pos_of_occurs attrs0 m hmocc
          have h2 := countImgsF_ge_mem ns m hmem
          omega
      obtain ⟨n2, heqN, hoccN, hwfN2⟩ :=
        imgsOneN cfg base imagesDir attrs0 srcRaw r hsrc hfetch hstat k n
          hwf.1 hcn hoccHead
      refine ⟨n2 :: ns, ?_, ⟨n2, List.mem_cons_self _ _, hoccN⟩, ?_⟩
      · rw [processImgsList, heqN]
        simp only []
        rw [imgsZeroF cfg base imagesDir (k + 1) ns hct]
        simp
      · rw [wfF, Bool.and_eq_true]
        exact ⟨hwfN2, hwf.2⟩
    · have hcn0 : countImgsN n = 0 := by
        have hle : countImgsN n ≤ 1 := by omega
        omega
      have hct : countImgsF ns = 1 := by omega
      have hoccT : OccursF (.elem "img".data attrs0 []) ns := by
        cases hm with
        | head =>
          exfalso
          have h1 := count_pos_of_occurs attrs0 n hmocc
          omega
        | tail _ hmem => exact ⟨m, hmem, hmocc⟩
      obtain ⟨ns2, heqT, hoccT2, hwfT2⟩ :=
        imgsOneF cfg base imagesDir attrs0 srcRaw r hsrc hfetch hstat k ns
          hwf.2 hct hoccT
      refine ⟨n :: ns2, ?_, ?_, ?_⟩
      · rw [processImgsList, imgsZeroN cfg base imagesDir k n hcn0]
        simp only []
        rw [heqT]
        simp
      · obtain ⟨c2, hc2, ho2⟩ := hoccT2
        exact ⟨c2, List.mem_cons_of_mem _ hc2, ho2⟩
      · rw [wfF, Bool.and_eq_true]
        exact ⟨hwf.1, hwfT2⟩

end

theorem isStylesheetLink_tag (t : Str) (a : Attrs)
    (h : isStylesheetLink t a = true) : t = "link".data := by
  rw [isStylesheetLink, Bool.and_eq_true] at h
  exact of_decide_eq_true h.1

theorem scriptReplacement_some_shape (cfg : Cfg) (base : Str) (a : Attrs)
    (n2 : Node) (hrep : scriptReplacement cfg base a = some n2) :
    ∃ j r, getAttr "src".data a = some j ∧
      cfg.fetch (cfg.resolve base j) = some r ∧ r.status = 200 ∧
      n2 = .elem "script".data
        (a.filter (fun p => decide (¬ p.1 = "src".data))) [.text r.text] := by
  rw [scriptReplacement] at hrep
  cases hj : getAttr "src".data a with
  | none => rw [hj] at hrep; simp at hrep
  | some j =>
    rw [hj] at hrep
    simp only [] at hrep
    by_cases hje : j = []
    · rw [if_pos hje] at hrep; simp at hrep
    · rw [if_neg hje] at hrep
      by_cases hp : ("data:".data.isPrefixOf j || "javascript:".data.isPrefixOf j) = true
      · rw [if_pos hp] at hrep; simp at hrep
      · rw [if_neg hp] at hrep
        cases hf : cfg.fetch (cfg.resolve base j) with
        | none => rw [hf] at hrep; simp at hrep
        | some r =>
          rw [hf] at hrep
          simp only [] at hrep
          by_cases hs : r.status = 200
          · rw [if_pos hs] at hrep
            simp only [Option.some.injEq] at hrep
            exact ⟨j, r, rfl, hf, hs, hrep.symm⟩
          · rw [if_neg hs] at hrep; simp at hrep

theorem wf_style (css : Str) : wfN (.elem "style".data [] [.text css]) = true := by
  rw [wfN, if_neg (by decide), if_neg (by decide)]
  simp [wfF, wfN]

theorem wf_inline_script (a2 : Attrs) (js : Str) :
    wfN (.elem "script".data a2 [.text js]) = true := by
  rw [wfN, if_neg (by decide), if_pos rfl]
  simp [wfF, wfN, isTextNode]

theorem processLinks_all_text (cfg : Cfg) (base : Str) :
    ∀ ns : List Node, ns.all isTextNode = true →
      processLinksList cfg base ns = ns
  | [], _ => rfl
  | n :: ns, h => by
    rw [List.all_cons, Bool.and_eq_true] at h
    cases n with
    | text s =>
      rw [processLinksList, processLinksNode,
        processLinks_all_text cfg base ns h.2]
    | elem t a kids => simp [isTextNode] at h

theorem processScripts_all_text (cfg : Cfg) (base : Str) :
    ∀ ns : List Node, ns.all isTextNode = true →
      processScriptsList cfg base ns = ns
  | [], _ => rfl
  | n :: ns, h => by
    rw [List.all_cons, Bool.and_eq_true] at h
    cases n with
    | text s =>
      rw [processScriptsList, processScriptsNode,
        processScripts_all_text cfg base ns h.2]
    | elem t a kids => simp [isTextNode] at h

mutual

theorem linksPreserveN (cfg : Cfg) (base : Str) (a2 : Attrs) :
    ∀ n : Node, wfN n = true →
      wfN (processLinksNode cfg base n) = true ∧
      (Occurs (.elem "img".data a2 []) n →
        Occurs (.elem "img".data a2 []) (processLinksNode cfg base n))
  | .text s, _ => by
    constructor
    · simp [processLinksNode, wfN]
    · intro h
      cases h
  | .elem t a kids, hwf => by
    rw [wfN, Bool.and_eq_true, Bool.and_eq_true] at hwf
    obtain ⟨hw1, hw2, hwkids⟩ := hwf
    by_cases hsl : isStylesheetLink t a = true
    · have ht := isStylesheetLink_tag t a hsl
      have hkids : kids = [] := by
        rw [if_pos (Or.inr ht)] at hw1
        exact List.isEmpty_iff.mp hw1
      subst hkids
      cases hrep : linkReplacement cfg base a with
      | none =>
        constructor
        · simp only [processLinksNode, if_pos hsl, hrep]
          rw [wfN, Bool.and_eq_true, Bool.and_eq_true]
          exact ⟨hw1, hw2, by simp [processLinksList, wfF]⟩
        · intro hocc
          simpa [processLinksNode, if_pos hsl, hrep, processLinksList] using hocc
      | some n2 =>
        obtain ⟨href, rr, hh, hf, hs, htx, hshape⟩ :=
          linkReplacement_some_shape cfg base a n2 hrep
        constructor
        · simp only [processLinksNode, if_pos hsl, hrep]
          rw [hshape]
          exact wf_style _
        · intro hocc
          exfalso
          cases hocc with
          | here => exact absurd ht (by decide)
          | inChild hmem hocc2 => exact absurd hmem (List.not_mem_nil _)
    · constructor
      · simp only [processLinksNode, if_neg hsl]
        rw [wfN, Bool.and_eq_true, Bool.and_eq_true]
        refine ⟨?_, ?_, (linksPreserveF cfg base a2 kids hwkids).1⟩
        · by_cases hv : t = "img".data ∨ t = "link".data
          · rw [if_pos hv] at hw1 ⊢
            have hk : kids = [] := List.isEmpty_iff.mp hw1
            subst hk
            simp [processLinksList]
          · rw [if_neg hv]
        · by_cases hscr : t = "script".data
          · rw [if_pos hscr] at hw2 ⊢
            rw [processLinks_all_text cfg base kids hw2]
            exact hw2
          · rw [if_neg hscr]
      · intro hocc
        cases hocc with
        | here =>
          simp only [processLinksNode, if_neg hsl, processLinksList]
          exact Occurs.here
        | inChild hmem hocc2 =>
          obtain ⟨c2, hc2, ho2⟩ :=
            (linksPreserveF cfg base a2 kids hwkids).2 ⟨_, hmem, hocc2⟩
          simp only [processLinksNode, if_neg hsl]
          exact Occurs.inChild hc2 ho2

theorem linksPreserveF (cfg : Cfg) (base : Str) (a2 : Attrs) :
    ∀ ns : List Node, wfF ns = true →
      wfF (processLinksList cfg base ns) = true ∧
      (OccursF (.elem "img".data a2 []) ns →
        OccursF (.elem "img".data a2 []) (processLinksList cfg base ns))
  | [], _ => by
    constructor
    · simp [processLinksList, wfF]
    · intro h
      obtain ⟨n, hn, _⟩ := h
      exact absurd hn (List.not_mem_nil _)
  | n :: ns, hwf => by
    rw [wfF, Bool.and_eq_true] at hwf
    have hN := linksPreserveN cfg base a2 n hwf.1
    have hF := linksPreserveF cfg base a2 ns hwf.2
    constructor
    · rw [processLinksList, wfF, Bool.and_eq_true]
      exact ⟨hN.1, hF.1⟩
    · intro hocc
      obtain ⟨m, hm, hmo⟩ := hocc
      cases hm with
      | head =>
        exact ⟨_, List.mem_cons_self _ _, hN.2 hmo⟩
      | tail _ hmem =>
        obtain ⟨c2, hc2, ho2⟩ := hF.2 ⟨m, hmem, hmo⟩
        exact ⟨c2, List.mem_cons_of_mem _ hc2, ho2⟩

end

mutual

theorem scriptsPreserveN (cfg : Cfg) (base : Str) (a2 : Attrs) :
    ∀ n : Node, wfN n = true →
      wfN (processScriptsNode cfg base n) = true ∧
      (Occurs (.elem "img".data a2 []) n →
        Occurs (.elem "img".data a2 []) (processScriptsNode cfg base n))
  | .text s, _ => by
    constructor
    · simp [processScriptsNode, wfN]
    · intro h
      cases h
  | .elem t a kids, hwf => by
    rw [wfN, Bool.and_eq_true, Bool.and_eq_true] at hwf
    obtain ⟨hw1, hw2, hwkids⟩ := hwf
    by_cases hsc : isExternalScript t a = true
    · have ht : t = "script".data := by
        rw [isExternalScript, Bool.and_eq_true] at hsc
        exact of_decide_eq_true hsc.1
      have hktext : kids.all isTextNode = true := by
        rw [if_pos ht] at hw2
        exact hw2
      have hnocc : ¬ Occurs (.elem "img".data a2 []) (.elem t a kids) := by
        intro hocc
        cases hocc with
        | here => exact absurd ht (by decide)
        | inChild hmem hocc2 =>
          rename_i c
          have hct : isTextNode c = true := by
            rw [List.all_eq_true] at hktext
            exact hktext c hmem
          cases c with
          | text s2 => exact occurs_elem_not_text a2 s2 hocc2
          | elem tc ac kc => simp [isTextNode] at hct
      cases hrep : scriptReplacement cfg base a with
      | none =>
        have hkeep : processScriptsNode cfg base (.elem t a kids) = .elem t a kids := by
          simp only [processScriptsNode, if_pos hsc, hrep]
          rw [processScripts_all_text cfg base kids hktext]
        constructor
        · rw [hkeep, wfN, Bool.and_eq_true, Bool.and_eq_true]
          exact ⟨hw1, hw2, hwkids⟩
        · intro hocc
          rw [hkeep]
          exact hocc
      | some n2 =>
        obtain ⟨j, rr, hj, hf, hs, hshape⟩ :=
          scriptReplacement_some_shape cfg base a n2 hrep
        constructor
        · simp only [processScriptsNode, if_pos hsc, hrep]
          rw [hshape]
          exact wf_inline_script _ _
        · intro hocc
          exact absurd hocc hnocc
    · constructor
      · simp only [processScriptsNode, if_neg hsc]
        rw [wfN, Bool.and_eq_true, Bool.and_eq_true]
        refine ⟨?_, ?_, (scriptsPreserveF cfg base a2 kids hwkids).1⟩
        · by_cases hv : t = "img".data ∨ t = "link".data
          · rw [if_pos hv] at hw1 ⊢
            have hk : kids = [] := List.isEmpty_iff.mp hw1
            subst hk
            simp [processScriptsList]
          · rw [if_neg hv]
        · by_cases hscr : t = "script".data
          · rw [if_pos hscr] at hw2 ⊢
            rw [processScripts_all_text cfg base kids hw2]
            exact hw2
          · rw [if_neg hscr]
      · intro hocc
        cases hocc with
        | here =>
          simp only [processScriptsNode, if_neg hsc, processScriptsList]
          exact Occurs.here
        | inChild hmem hocc2 =>
          obtain ⟨c2, hc2, ho2⟩ :=
            (scriptsPreserveF cfg base a2 kids hwkids).2 ⟨_, hmem, hocc2⟩
          simp only [processScriptsNode, if_neg hsc]
          exact Occurs.inChild hc2 ho2

theorem scriptsPreserveF (cfg : Cfg) (base : Str) (a2 : Attrs) :
    ∀ ns : List Node, wfF ns = true →
      wfF (processScriptsList cfg base ns) = true ∧
      (OccursF (.elem "img".data a2 []) ns →
        OccursF (.elem "img".data a2 []) (processScriptsList cfg base ns))
  | [], _ => by
    constructor
    · simp [processScriptsList, wfF]
    · intro h
      obtain ⟨n, hn, _⟩ := h
      exact absurd hn (List.not_mem_nil _)
  | n :: ns, hwf => by
    rw [wfF, Bool.and_eq_true] at hwf
    have hN := scriptsPreserveN cfg base a2 n hwf.1
    have hF := scriptsPreserveF cfg base a2 ns hwf.2
    constructor
    · rw [processScriptsList, wfF, Bool.and_eq_true]
      exact ⟨hN.1, hF.1⟩
    · intro hocc
      obtain ⟨m, hm, hmo⟩ := hocc
      cases hm with
      | head =>
        exact ⟨_, List.mem_cons_self _ _, hN.2 hmo⟩
      | tail _ hmem =>
        obtain ⟨c2, hc2, ho2⟩ := hF.2 ⟨m, hmem, hmo⟩
        exact ⟨c2, List.mem_cons_of_mem _ hc2, ho2⟩

end

theorem setAttr_mem (k v : Str) : ∀ a : Attrs, (k, v) ∈ setAttr k v a
  | [] => by simp [setAttr]
  | (k2, v2) :: rest => by
    by_cases h : k2 = k
    · subst h
      simp [setAttr]
    · rw [setAttr, if_neg h]
      exact List.mem_cons_of_mem _ (setAttr_mem k v rest)

theorem attrText_infix_of_mem (a : Attrs) (k v : Str) (h : (k, v) ∈ a) :
    attrText k v <:+: renderAttrs a := by
  rw [renderAttrs]
  exact List.infix_of_mem_flatten (List.mem_map_of_mem _ h)

theorem infix_cons_char (x l : Str) (c : Char) (h : x <:+: l) : x <:+: c :: l :=
  h.trans (List.suffix_cons c l).isInfix

theorem renderList_infix_of_mem : ∀ (ns : List Node) (n : Node), n ∈ ns →
    renderNode n <:+: renderList ns
  | m :: ns, n, h => by
    cases h with
    | head =>
      rw [renderList]
      exact (List.prefix_append _ _).isInfix
    | tail _ hmem =>
      rw [renderList]
      exact (renderList_infix_of_mem ns n hmem).trans
        (List.suffix_append _ _).isInfix

theorem renderList_infix_of_kids (t : Str) (a : Attrs) (kids : List Node) :
    renderList kids <:+: renderNode (.elem t a kids) := by
  rw [renderNode]
  apply infix_cons_char
  exact ((List.suffix_cons '>' (renderList kids)).isInfix).trans
    (List.infix_append _ _ _)

theorem renderAttrs_within_render (t : Str) (a : Attrs) (kids : List Node) :
    renderAttrs a <:+: renderNode (.elem t a kids) := by
  rw [renderNode]
  apply infix_cons_char
  exact ((List.suffix_append t (renderAttrs a)).isInfix.trans
    (List.prefix_append _ _).isInfix).trans (List.prefix_append _ _).isInfix

theorem render_infix_of_occurs (x : Node) : ∀ (n : Node), Occurs x n →
    renderNode x <:+: renderNode n := by
  intro n h
  induction h with
  | here => exact List.infix_refl _
  | inChild hmem hocc ih =>
    rename_i t a kids c
    exact ih.trans ((renderList_infix_of_mem kids c hmem).trans
      (renderList_infix_of_kids t a kids))

theorem renderF_infix_of_occursF (x : Node) (ns : List Node)
    (h : OccursF x ns) : renderNode x <:+: renderList ns := by
  obtain ⟨n, hn, ho⟩ := h
  exact (render_infix_of_occurs x n ho).trans (renderList_infix_of_mem ns n hn)

/-- C2: for a well-formed document whose only image element has a source
that resolves and fetches successfully, the pipeline records exactly one
`(path, origin URL)` image entry whose file on disk holds byte-for-byte
the bytes the fetch of that URL returns, and the returned HTML carries a
`src="data:<mime>;base64,<payload>"` attribute for that element in place
of the original URL. -/
theorem c2_single_image_roundtrip
    (parse : Str → Option (List Node)) (cfg : Cfg)
    (html base page_dir : Str) (doc : List Node) (attrs0 : Attrs)
    (srcRaw : Str) (r : Resp)
    (hparse : parse html = some doc)
    (hwf : wfF doc = true)
    (hcount : countImgsF doc = 1)
    (hocc : OccursF (.elem "img".data attrs0 []) doc)
    (hsrc : firstSource attrs0 = some srcRaw)
    (hfetch : cfg.fetch (cfg.resolve base srcRaw) = some r)
    (hstat : r.status = 200) :
    (download_resources_and_update_html parse cfg html base page_dir).images =
      [(imgEntryPath cfg base (page_dir ++ "/images".data) srcRaw r 0,
        cfg.resolve base srcRaw)] ∧
    (download_resources_and_update_html parse cfg html base page_dir).files =
      [(imgEntryPath cfg base (page_dir ++ "/images".data) srcRaw r 0, r.bytes)] ∧
    attrText "src".data (imgDataUri cfg base srcRaw r) <:+:
      (download_resources_and_update_html parse cfg html base page_dir).html ∧
    imgDataUri cfg base srcRaw r =
      "data:".data ++
        ((sniffImage cfg.extOf (cfg.resolve base srcRaw)
          (r.contentType.getD "image/jpeg".data)).2 ++
          (";base64,".data ++ base64Encode r.bytes)) := by
  obtain ⟨doc2, heq, hocc2, hwf2⟩ :=
    imgsOneF cfg base (page_dir ++ "/images".data) attrs0 srcRaw r hsrc hfetch
      hstat 0 doc hwf hcount hocc
  have hL := linksPreserveF cfg base (inlinedImgAttrs cfg base srcRaw r attrs0)
    doc2 hwf2
  have hS := scriptsPreserveF cfg base (inlinedImgAttrs cfg base srcRaw r attrs0)
    (processLinksList cfg base doc2) hL.1
  have hocc3 := hS.2 (hL.2 hocc2)
  simp only [download_resources_and_update_html, hparse, heq]
  refine ⟨trivial, trivial, ?_, ?_⟩
  · have h1 : attrText "src".data (imgDataUri cfg base srcRaw r) <:+:
        renderNode (.elem "img".data (inlinedImgAttrs cfg base srcRaw r attrs0) []) :=
      (attrText_infix_of_mem _ _ _ (setAttr_mem _ _ attrs0)).trans
        (renderAttrs_within_render "img".data _ [])
    exact h1.trans (renderF_infix_of_occursF _ _ hocc3)
  · rw [imgDataUri, dataUriOf]
    simp [List.append_assoc]

/-- Witness for C2: a concrete one-image document, inlined against a
fetch oracle returning bytes `[1, 2, 3]` of type `image/png`. -/
theorem c2_single_image_roundtrip_witness :
    (download_resources_and_update_html (fun _ => some c2Doc) c2Cfg "h".data
        "b".data "d".data).images =
      [("d/images/img_0.png".data, "p.png".data)] ∧
    (download_resources_and_update_html (fun _ => some c2Doc) c2Cfg "h".data
        "b".data "d".data).files =
      [("d/images/img_0.png".data, [1, 2, 3])] ∧
    attrText "src".data "data:image/png;base64,AQID".data <:+:
      (download_resources_and_update_html (fun _ => some c2Doc) c2Cfg "h".data
        "b".data "d".data).html := by
  have himg : Occurs (.elem "img".data [("src".data, "p.png".data)] [])
      (.elem "html".data []
        [.elem "body".data []
          [.elem "img".data [("src".data, "p.png".data)] []]]) := by
    apply Occurs.inChild (List.mem_singleton.mpr rfl)
    apply Occurs.inChild (List.mem_singleton.mpr rfl)
    exact Occurs.here
  have h := c2_single_image_roundtrip (fun _ => some c2Doc) c2Cfg "h".data
    "b".data "d".data c2Doc [("src".data, "p.png".data)] "p.png".data
    ⟨200, [1, 2, 3], [], some "image/png".data⟩
    rfl (by decide) (by decide)
    ⟨.elem "html".data []
      [.elem "body".data [] [.elem "img".data [("src".data, "p.png".data)] []]],
      by simp [c2Doc], himg⟩
    (by decide) (by decide) rfl
  obtain ⟨h1, h2, h3, h4⟩ := h
  refine ⟨?_, ?_, ?_⟩
  · rw [h1]
    decide
  · rw [h2]
    decide
  · have e : imgDataUri c2Cfg "b".data "p.png".data
        ⟨200, [1, 2, 3], [], some "image/png".data⟩ =
        "data:image/png;base64,AQID".data := by decide
    rw [← e]
    exact h3
